import Mathlib

/-!
# wifi-xBridge: `Configuration.cpp`

A shallow embedding of the EEPROM configuration store of `src/Configuration.cpp`
(`LoadConfig`, `SaveConfig`, the field getters and setters and the two write
helpers), followed by theorems about the record format.

Conventions of the embedding

* a `byte` (`EEPROM.read`, `char`, one character of an Arduino `String`) is a
  value of `Fin 256`; `char` is the unsigned `char` of the ESP8266 toolchain
  the file is written for (`EEPROM.commit()`), so `firstChar == 182` compares
  the stored byte with 182;
* an Arduino `String` is the list of its characters;
* `uint32_t` values are natural numbers, reduced modulo `2 ^ 32` where a value
  enters a `uint32_t` variable;
* the global `EEPROM` object and the members `_loaded` and `_bridgeConfig` of
  the single `Configuration` instance are fields of `Store`, which also
  counts the calls of `EEPROM.commit()`;
* the `Serial` output has no effect on the store and is left out;
* `BridgeConfig::wifiList` is a pointer to a list; the three calls that
  dereference it (`saveSSID`, `getWifiData`, `getWifiCount`) answer an
  `Outcome`, which tells a return from a stop on the null pointer;
* the `while (continueReading)` loop of `LoadConfig` runs on fuel and answers
  `none` when the fuel is used up, so every operation that may load returns an
  `Option`; `LoadConfig` gives the loop 4092 units of fuel and
  `LoadConfig_loop_terminates` shows that they are never used up.
-/

namespace Configuration

/-- One EEPROM cell, one `char`, one character of an Arduino `String`. -/
abbrev byte := Fin 256

/-- An Arduino `String`: the sequence of its characters. -/
abbrev Str := List byte

/-- Modelled from the spec: the storage capacity. The `EEPROM` object is
declared outside `Configuration.cpp`; the scan loop of `LoadConfig` treats
index 4095 as the last addressable position, capacity 4096. -/
def EEPROM_SIZE : Nat := 4096

/-- Modelled from the spec: the content of the byte-addressable store, one
byte per address (`Storage.readByte`). Only addresses below `EEPROM_SIZE` are
ever written. -/
abbrev EEPROM := Nat → byte

/-- Modelled from the spec: `EEPROM.read(address)`, the `Storage.readByte`
capability. -/
def EEPROM_read (e : EEPROM) (address : Nat) : byte := e address

/-- Modelled from the spec: `EEPROM.write(address, value)`, the
`Storage.writeByte` capability. A write past the capacity is dropped
(the silent truncation the spec describes for the reference source). -/
def EEPROM_write (e : EEPROM) (address : Nat) (value : byte) : EEPROM :=
  fun a => if a = address ∧ address < EEPROM_SIZE then value else e a

/-- The constant `CONFIGURATION_SEPARATOR = '¬'`, the byte 0xAC. -/
def CONFIGURATION_SEPARATOR : byte := 172

/-- Modelled from the spec: the helper `EEPROM_readAnything(ee, value)` at a
`uint32_t`, which is not among the sources: the four bytes at `ee .. ee + 3`
read as a raw unsigned 32-bit value, least significant byte first (the byte
order of the ESP8266). -/
def EEPROM_readAnything (e : EEPROM) (ee : Nat) : Nat :=
  (EEPROM_read e ee).val + 256 * (EEPROM_read e (ee + 1)).val
    + 65536 * (EEPROM_read e (ee + 2)).val + 16777216 * (EEPROM_read e (ee + 3)).val

/-- Modelled from the spec: the helper `EEPROM_writeAnything(ee, value)` at a
`uint32_t`, which is not among the sources: the four raw bytes of `value`
written at `ee .. ee + 3`, least significant byte first. -/
def EEPROM_writeAnything (e : EEPROM) (ee : Nat) (value : Nat) : EEPROM :=
  let e := EEPROM_write e ee (Fin.ofNat value)
  let e := EEPROM_write e (ee + 1) (Fin.ofNat (value / 256))
  let e := EEPROM_write e (ee + 2) (Fin.ofNat (value / 65536))
  EEPROM_write e (ee + 3) (Fin.ofNat (value / 16777216))

/-- Modelled from the spec: `WifiData` of `Configuration.h`, one stored
network: `ssid` and `password`. -/
structure WifiData where
  ssid : Str
  password : Str
deriving DecidableEq

/-- Modelled from the spec: `BridgeConfig` of `Configuration.h` with the
fields `Configuration.cpp` uses. `wifiList` is a pointer to a
`LinkedList<WifiData>` (`bridgeConfig->wifiList->add`); `none` is the null
pointer. -/
structure BridgeConfig where
  transmitterId : Nat
  appEngineAddress : Str
  hotSpotName : Str
  hotSpotPassword : Str
  wifiList : Option (List WifiData)
deriving DecidableEq

/-- The entries a record holds: those of its list, none under a null
pointer. -/
def BridgeConfig.wifiEntries (c : BridgeConfig) : List WifiData :=
  match c.wifiList with
  | some l => l
  | none => []

/-- The record `calloc(1, sizeof(BridgeConfig))` returns: every byte zero, so
the id is 0, the three strings are empty and the list pointer is null. -/
def calloc_BridgeConfig : BridgeConfig :=
  { transmitterId := 0, appEngineAddress := [], hotSpotName := [],
    hotSpotPassword := [], wifiList := none }

/-- The state the code works on: the content of the global `EEPROM`, the
members `_loaded` and `_bridgeConfig` of the `Configuration` object, and the
number of `EEPROM.commit()` calls made so far. `_bridgeConfig` is the record
the pointer of the source points to. While `_loaded` is false that pointer is
uninitialised or freed and the calls of the source never read it: every call
of `LoadConfig` in the source assigns its result to `_bridgeConfig` at
once. -/
structure Store where
  eeprom : EEPROM
  _loaded : Bool
  _bridgeConfig : BridgeConfig
  commits : Nat

/-- The local variables of `LoadConfig` that its loop reads and writes. -/
structure LoadVars where
  config : BridgeConfig
  eepromData : Str
  separatorFound : Bool
  appEngineRead : Bool
  hotspotNameRead : Bool
  hotspotPasswordRead : Bool

/-- The body of the scan loop of `LoadConfig` (lines 182-231) for a byte
`newChar` that does not end the configuration. -/
def LoadConfig_step (v : LoadVars) (newChar : byte) : LoadVars :=
  let v := if newChar = CONFIGURATION_SEPARATOR then { v with separatorFound := true } else v
  if v.separatorFound then
    let v :=
      if !v.appEngineRead then
        { v with appEngineRead := true,
                 config := { v.config with appEngineAddress := v.eepromData } }
      else if !v.hotspotNameRead then
        { v with hotspotNameRead := true,
                 config := { v.config with hotSpotName := v.eepromData } }
      else if !v.hotspotPasswordRead then
        { v with hotspotPasswordRead := true,
                 config := { v.config with hotSpotPassword := v.eepromData } }
      else v
    { v with eepromData := [] }
  else
    { v with eepromData := v.eepromData ++ [newChar] }

/-- The loop `while(continueReading)` of `LoadConfig` (lines 176-238), started
at index `i` with local variables `v`; `none` when the fuel is used up. -/
def LoadConfig_loop (e : EEPROM) : Nat → Nat → LoadVars → Option BridgeConfig
  | 0, _, _ => none
  | fuel + 1, i, v =>
    let newChar := EEPROM_read e i
    if ¬(newChar = 0 ∨ newChar = 255 ∨ i = 4095) then
      LoadConfig_loop e fuel (i + 1) (LoadConfig_step v newChar)
    else
      some v.config

/-- `Configuration::LoadConfig` (lines 153-251): the record read from the
EEPROM, and the store with `_loaded` set. -/
def LoadConfig (st : Store) : Option (BridgeConfig × Store) :=
  let config := calloc_BridgeConfig
  let firstChar := EEPROM_read st.eeprom 0
  if firstChar = 182 then
    let config := { config with transmitterId := EEPROM_readAnything st.eeprom 1 }
    let config := { config with appEngineAddress := [], hotSpotName := [],
                                hotSpotPassword := [] }
    match LoadConfig_loop st.eeprom 4092 4
        { config := config, eepromData := [], separatorFound := false,
          appEngineRead := false, hotspotNameRead := false,
          hotspotPasswordRead := false } with
    | some config => some (config, { st with _loaded := true })
    | none => none
  else
    let config := { config with appEngineAddress := [], hotSpotName := [],
                                hotSpotPassword := [] }
    some (config, { st with _loaded := true })

/-- `Configuration::getBridgeConfig` (lines 140-145): the cached record,
loaded first when the store is not loaded. -/
def getBridgeConfig (st : Store) : Option (BridgeConfig × Store) :=
  if !st._loaded then
    match LoadConfig st with
    | some (config, st) => some (config, { st with _bridgeConfig := config })
    | none => none
  else
    some (st._bridgeConfig, st)

/-- `Configuration::setTransmitterId` (lines 38-45). -/
def setTransmitterId (st : Store) (transmitterId : Nat) : Option Store :=
  match getBridgeConfig st with
  | some (bridgeConfig, st) =>
    some { st with _bridgeConfig :=
      { bridgeConfig with transmitterId := transmitterId % 2 ^ 32 } }
  | none => none

/-- `Configuration::setAppEngineAddress` (lines 52-59). -/
def setAppEngineAddress (st : Store) (address : Str) : Option Store :=
  match getBridgeConfig st with
  | some (bridgeConfig, st) =>
    some { st with _bridgeConfig := { bridgeConfig with appEngineAddress := address } }
  | none => none

/-- `Configuration::getTransmitterId` (lines 102-115): the raw read of the
four bytes at 1 goes to a local that is not used; the result is the cached
field. -/
def getTransmitterId (st : Store) : Option (Nat × Store) :=
  let _transmitterId := EEPROM_readAnything st.eeprom 1
  match getBridgeConfig st with
  | some (bridgeConfig, st) => some (bridgeConfig.transmitterId, st)
  | none => none

/-- `Configuration::getAppEngineAddress` (lines 120-133). -/
def getAppEngineAddress (st : Store) : Option (Str × Store) :=
  match getBridgeConfig st with
  | some (bridgeConfig, st) =>
    if bridgeConfig.appEngineAddress.length > 0 then
      some (bridgeConfig.appEngineAddress, st)
    else
      some ([], st)
  | none => none

/-- Modelled from the spec: `LinkedList<WifiData>::add` of the list library,
which is not among the sources: the list is an ordered sequence and keeps the
insertion order, so the new entry goes to the end. -/
def LinkedList_add (l : List WifiData) (x : WifiData) : List WifiData := l ++ [x]

/-- Modelled from the spec: `LinkedList<WifiData>::size`, the number of
entries. -/
def LinkedList_size (l : List WifiData) : Nat := l.length

/-- Modelled from the spec: `LinkedList<WifiData>::get(index)`, which returns
a `WifiData` by value: the entry at `index` when `0 ≤ index < size`. For an
index outside that range the spec speaks of undefined data; that value is the
parameter `undefinedData`. -/
def LinkedList_get (undefinedData : WifiData) (l : List WifiData) (index : Int) : WifiData :=
  if 0 ≤ index ∧ index < l.length then l.getD index.toNat undefinedData else undefinedData

/-- The object `calloc(1, sizeof(WifiData))` returns: two empty strings. -/
def calloc_WifiData : WifiData := { ssid := [], password := [] }

/-- How a call that uses `bridgeConfig->wifiList` stops: it returns a value,
or it dereferences the null list pointer; `st` is the store at that point. -/
inductive Outcome (α : Type) where
  | returned (value : α) (st : Store)
  | nullPointer (st : Store)

/-- The store a call leaves, when it returns and when it stops on the null
pointer. -/
def Outcome.store {α : Type} : Outcome α → Store
  | .returned _ st => st
  | .nullPointer st => st

/-- The value a call returns; `none` when it stops on the null pointer. -/
def Outcome.value {α : Type} : Outcome α → Option α
  | .returned value _ => some value
  | .nullPointer _ => none

set_option linter.unusedVariables false in
/-- `Configuration::saveSSID` (lines 66-72): a `WifiData` fresh from `calloc`
is added to the list of the cached record; `ssidName` and `ssidPassword` are
not used. -/
def saveSSID (st : Store) (ssidName ssidPassword : Str) : Option (Outcome Unit) :=
  match getBridgeConfig st with
  | some (bridgeConfig, st) =>
    let wifiData := calloc_WifiData
    match bridgeConfig.wifiList with
    | some l =>
      some (.returned ()
        { st with _bridgeConfig :=
          { bridgeConfig with wifiList := some (LinkedList_add l wifiData) } })
    | none => some (.nullPointer st)
  | none => none

/-- `Configuration::getWifiData` (lines 79-82); `undefinedData` is what the
list hands back for an index outside its entries. -/
def getWifiData (undefinedData : WifiData) (st : Store) (position : Int) :
    Option (Outcome WifiData) :=
  match getBridgeConfig st with
  | some (bridgeConfig, st) =>
    match bridgeConfig.wifiList with
    | some l => some (.returned (LinkedList_get undefinedData l position) st)
    | none => some (.nullPointer st)
  | none => none

/-- `Configuration::getWifiCount` (lines 89-97); the `int` it returns is a
natural number here. -/
def getWifiCount (st : Store) : Option (Outcome Nat) :=
  match getBridgeConfig st with
  | some (bridgeConfig, st) =>
    match bridgeConfig.wifiList with
    | some wifiList => some (.returned (LinkedList_size wifiList) st)
    | none => some (.nullPointer st)
  | none => none

/-- `Configuration::WriteEEPROM` (lines 335-341). -/
def WriteEEPROM (e : EEPROM) (position : Nat) (data : byte) : EEPROM :=
  EEPROM_write e position data

/-- `Configuration::WriteStringToEEPROM` (lines 323-328): the characters
`data.charAt(0) ..` written at `position`, `position + 1`, .. -/
def WriteStringToEEPROM (e : EEPROM) (position : Nat) (data : Str) : EEPROM :=
  (List.range data.length).foldl
    (fun e i => WriteEEPROM e (position + i) (data.getD i 0)) e

/-- `Configuration::SaveConfig` (lines 258-316). The block that would write
the wifi list (lines 296-310) is commented out in the source.
`EEPROM.commit()` (line 312) makes the written cells persistent, changes no
cell and is counted in `commits`; `free(_bridgeConfig)` leaves a pointer that
is not read while `_loaded` is false. -/
def SaveConfig (st : Store) : Option Store :=
  match (if !st._loaded then
      match LoadConfig st with
      | some (config, st) => some { st with _bridgeConfig := config }
      | none => none
    else some st) with
  | none => none
  | some st =>
    let e := WriteEEPROM st.eeprom 0 182
    match getTransmitterId { st with eeprom := e } with
    | none => none
    | some (transmitterId, st) =>
      let e := EEPROM_writeAnything st.eeprom 1 transmitterId
      let position := 4
      let e := WriteStringToEEPROM e position st._bridgeConfig.appEngineAddress
      let position := position + st._bridgeConfig.appEngineAddress.length
      let e := WriteEEPROM e position CONFIGURATION_SEPARATOR
      let position := position + 1
      let e := WriteStringToEEPROM e position st._bridgeConfig.hotSpotName
      let position := position + st._bridgeConfig.hotSpotName.length
      let e := WriteEEPROM e position CONFIGURATION_SEPARATOR
      let position := position + 1
      let e := WriteStringToEEPROM e position st._bridgeConfig.hotSpotPassword
      let position := position + st._bridgeConfig.hotSpotPassword.length
      let e := WriteEEPROM e position CONFIGURATION_SEPARATOR
      let position := position + 1
      let e := WriteEEPROM e position 0
      some { st with eeprom := e, _loaded := false, commits := st.commits + 1 }

/-! ## Definitions used to state the results -/

/-- The record a load of the store returns, when the load returns. -/
def loaded (st : Store) : Option BridgeConfig :=
  (LoadConfig st).map Prod.fst

/-- An unprogrammed EEPROM: every cell reads 0xFF. -/
def erased : EEPROM := fun _ => 255

/-- A loaded store with cached record `r` over the EEPROM content `e`. -/
def cached (e : EEPROM) (r : BridgeConfig) : Store :=
  { eeprom := e, _loaded := true, _bridgeConfig := r, commits := 0 }

/-- A store on which nothing has been called yet (the constructor sets
`_loaded = false`) over the EEPROM content `e`. -/
def unloaded (e : EEPROM) : Store :=
  { eeprom := e, _loaded := false, _bridgeConfig := calloc_BridgeConfig, commits := 0 }

/-- An EEPROM whose first cells hold the bytes of `l`, the rest erased. -/
def programmed (l : List byte) : EEPROM := fun a => l.getD a 255

/-- The first `n` cells of an EEPROM. -/
def cells (e : EEPROM) (n : Nat) : List byte := (List.range n).map e

/-- The record `LoadConfig` builds before its loop: the raw id and three empty
strings. -/
def headerOnly (e : EEPROM) : BridgeConfig :=
  { transmitterId := EEPROM_readAnything e 1, appEngineAddress := [], hotSpotName := [],
    hotSpotPassword := [], wifiList := none }

/-- The text part of the stream `SaveConfig` writes from index 4: the three
strings, each followed by a separator, and the final NUL. -/
def savedText (r : BridgeConfig) : List byte :=
  r.appEngineAddress ++ CONFIGURATION_SEPARATOR ::
    (r.hotSpotName ++ CONFIGURATION_SEPARATOR ::
      (r.hotSpotPassword ++ [CONFIGURATION_SEPARATOR, 0]))

/-- The bytes `SaveConfig` leaves in the cells from 0 on for the cached
record `r`: the marker, the three low bytes of the id (the fourth id byte,
written at 4, is covered by the text that also starts at 4), the text. -/
def savedBytes (r : BridgeConfig) : List byte :=
  [182, Fin.ofNat r.transmitterId, Fin.ofNat (r.transmitterId / 256),
    Fin.ofNat (r.transmitterId / 65536)] ++ savedText r

/-- A text without terminator and separator bytes: none of 0x00, 0xAC,
0xFF. -/
def cleanText (s : Str) : Prop := ∀ b ∈ s, b ≠ 0 ∧ b ≠ 172 ∧ b ≠ 255

/-- A record with empty hotspot fields and without a wifi list. -/
def plain (c : BridgeConfig) : Prop :=
  c.hotSpotName = [] ∧ c.hotSpotPassword = [] ∧ c.wifiList = none

/-- The stores the code can produce: a fresh `Configuration` object (the
constructor clears `_loaded`) over any EEPROM content, and the store each
call of a getter, of a setter or of `SaveConfig` leaves when it returns. -/
inductive Reachable : Store → Prop where
  | fresh (e : EEPROM) : Reachable (unloaded e)
  | setTransmitterId (st st1 : Store) (transmitterId : Nat) :
      Reachable st → setTransmitterId st transmitterId = some st1 → Reachable st1
  | setAppEngineAddress (st st1 : Store) (address : Str) :
      Reachable st → setAppEngineAddress st address = some st1 → Reachable st1
  | saveSSID (st st1 : Store) (ssidName ssidPassword : Str) :
      Reachable st → saveSSID st ssidName ssidPassword = some (.returned () st1) →
      Reachable st1
  | getWifiData (undefinedData : WifiData) (st st1 : Store) (position : Int)
      (value : WifiData) :
      Reachable st → getWifiData undefinedData st position = some (.returned value st1) →
      Reachable st1
  | getWifiCount (st st1 : Store) (value : Nat) :
      Reachable st → getWifiCount st = some (.returned value st1) → Reachable st1
  | getTransmitterId (st st1 : Store) (value : Nat) :
      Reachable st → getTransmitterId st = some (value, st1) → Reachable st1
  | getAppEngineAddress (st st1 : Store) (value : Str) :
      Reachable st → getAppEngineAddress st = some (value, st1) → Reachable st1
  | SaveConfig (st st1 : Store) :
      Reachable st → SaveConfig st = some st1 → Reachable st1

/-! ## Concrete records and EEPROM contents -/

/-- The text `x.example.com`. -/
def exampleAddress : Str := [120, 46, 101, 120, 97, 109, 112, 108, 101, 46, 99, 111, 109]

/-- The record of the example: id 123456, address `x.example.com`, empty
hotspot fields, an empty wifi list. -/
def exampleRecord : BridgeConfig :=
  { transmitterId := 123456, appEngineAddress := exampleAddress, hotSpotName := [],
    hotSpotPassword := [], wifiList := some [] }

/-- A valid record whose text is `a¬n¬p¬` and a NUL, from offset 4. -/
def threeFields : EEPROM := programmed [182, 0, 0, 0, 97, 172, 110, 172, 112, 172, 0]

/-- A valid record with the three fields `a`, `n`, `p` and then the two wifi
pairs `(s, q)` and `(t, r)`. -/
def twoPairs : EEPROM :=
  programmed [182, 0, 0, 0, 97, 172, 110, 172, 112, 172,
    115, 172, 113, 172, 116, 172, 114, 172, 0]

/-- A valid record whose text `ab` meets the NUL at index 6 before any
separator. -/
def cutField : EEPROM := programmed [182, 0, 0, 0, 97, 98, 0]

/-- A record whose address alone has 4089 characters. -/
def oversize : BridgeConfig :=
  { transmitterId := 0, appEngineAddress := List.replicate 4089 97, hotSpotName := [],
    hotSpotPassword := [], wifiList := none }

/-- A record whose encoding has exactly 4096 bytes: an address of 4088
characters. -/
def exactFit : BridgeConfig :=
  { transmitterId := 0, appEngineAddress := List.replicate 4088 97, hotSpotName := [],
    hotSpotPassword := [], wifiList := none }

/-- A record with the address `a` and the hotspot name `b`. -/
def namedHotspot : BridgeConfig :=
  { transmitterId := 0, appEngineAddress := [97], hotSpotName := [98],
    hotSpotPassword := [], wifiList := none }

/-- The network `home` with the password `pw`. -/
def homeNetwork : WifiData := { ssid := [104, 111, 109, 101], password := [112, 119] }

/-- A record whose wifi list exists and holds the entries `l`. -/
def listing (l : List WifiData) : BridgeConfig :=
  { transmitterId := 0, appEngineAddress := [], hotSpotName := [],
    hotSpotPassword := [], wifiList := some l }

/-- A valid record that never ends: the marker, then the letter `a` in every
cell. -/
def unterminated : EEPROM := fun a => if a = 0 then 182 else 97

/-- The valid record `a¬` and a NUL, followed by the bytes `1, 2, 3`. -/
def tailOne : EEPROM := programmed [182, 0, 0, 0, 97, 172, 0, 1, 2, 3]

/-- The valid record `a¬` and a NUL, followed by the bytes `9, 9, 9, 9`. -/
def tailTwo : EEPROM := programmed [182, 0, 0, 0, 97, 172, 0, 9, 9, 9, 9]

/-- The bytes of an earlier, longer record: the marker and the letter `z` in
the cells 1 .. 19, the rest erased. -/
def staleRecord : EEPROM := programmed (182 :: List.replicate 19 122)

/-- The store a fresh object over an erased EEPROM is in after
`setAppEngineAddress("x.example.com")`. -/
def addressed : Store :=
  { eeprom := erased, _loaded := true,
    _bridgeConfig :=
      { transmitterId := 0, appEngineAddress := exampleAddress, hotSpotName := [],
        hotSpotPassword := [], wifiList := none },
    commits := 0 }

/-! ## The scan loop of `LoadConfig` -/

theorem LoadConfig_loop_stop (e : EEPROM) (fuel i : Nat) (v : LoadVars)
    (h : e i = 0 ∨ e i = 255 ∨ i = 4095) :
    LoadConfig_loop e (fuel + 1) i v = some v.config := by
  simp [LoadConfig_loop, EEPROM_read, h]

theorem LoadConfig_loop_next (e : EEPROM) (fuel i : Nat) (v : LoadVars)
    (h0 : e i ≠ 0) (h255 : e i ≠ 255) (hi : i ≠ 4095) :
    LoadConfig_loop e (fuel + 1) i v
      = LoadConfig_loop e fuel (i + 1) (LoadConfig_step v (e i)) := by
  simp [LoadConfig_loop, EEPROM_read, h0, h255, hi]

/-- The loop returns: from an index `i ≤ 4095`, more than `4095 - i` units of
fuel are never used up. -/
theorem LoadConfig_loop_terminates (e : EEPROM) :
    ∀ (fuel i : Nat) (v : LoadVars), i ≤ 4095 → 4095 < i + fuel →
      ∃ c, LoadConfig_loop e fuel i v = some c := by
  intro fuel
  induction fuel with
  | zero => intro i v h1 h2; omega
  | succ n ih =>
    intro i v h1 h2
    by_cases h : e i = 0 ∨ e i = 255 ∨ i = 4095
    · exact ⟨v.config, LoadConfig_loop_stop e n i v h⟩
    · simp only [not_or] at h
      rw [LoadConfig_loop_next e n i v h.1 h.2.1 h.2.2]
      exact ih (i + 1) _ (by omega) (by omega)

/-- Before the first separator the loop appends every byte that is neither a
terminator nor the separator to `eepromData`. -/
theorem LoadConfig_loop_accumulate (e : EEPROM) :
    ∀ (n fuel i : Nat) (v : LoadVars), v.separatorFound = false →
      (∀ k, i ≤ k → k < i + n → e k ≠ 0 ∧ e k ≠ 255 ∧ e k ≠ 172) →
      i + n ≤ 4095 →
      LoadConfig_loop e (fuel + n) i v
        = LoadConfig_loop e fuel (i + n)
            { v with eepromData := v.eepromData ++ (List.range' i n).map e } := by
  intro n
  induction n with
  | zero => intro fuel i v _ _ _; simp
  | succ n ih =>
    intro fuel i v hs hk hi
    have h := hk i (le_refl i) (by omega)
    have e1 : fuel + (n + 1) = (fuel + n) + 1 := by omega
    rw [e1, LoadConfig_loop_next e (fuel + n) i v h.1 h.2.1 (by omega)]
    have hstep : LoadConfig_step v (e i) = { v with eepromData := v.eepromData ++ [e i] } := by
      simp [LoadConfig_step, CONFIGURATION_SEPARATOR, h.2.2, hs]
    rw [hstep]
    refine (ih fuel (i + 1) { v with eepromData := v.eepromData ++ [e i] } hs
      (fun k h1 h2 => hk k (by omega) (by omega)) (by omega)).trans ?_
    simp [List.range'_succ, Nat.add_assoc, Nat.add_comm 1 n]

/-- After the first separator `separatorFound` stays set and `eepromData`
stays empty, so the rest of the scan leaves a record with empty hotspot
fields as it is. -/
theorem LoadConfig_loop_after_separator (e : EEPROM) :
    ∀ (fuel i : Nat) (v : LoadVars), v.separatorFound = true → v.appEngineRead = true →
      v.eepromData = [] → v.config.hotSpotName = [] → v.config.hotSpotPassword = [] →
      i ≤ 4095 → 4095 < i + fuel →
      LoadConfig_loop e fuel i v = some v.config := by
  intro fuel
  induction fuel with
  | zero => intro i v _ _ _ _ _ h1 h2; omega
  | succ n ih =>
    intro i v hs ha hd hn hp h1 h2
    by_cases h : e i = 0 ∨ e i = 255 ∨ i = 4095
    · exact LoadConfig_loop_stop e n i v h
    · simp only [not_or] at h
      rw [LoadConfig_loop_next e n i v h.1 h.2.1 h.2.2]
      obtain ⟨config, eepromData, separatorFound, appEngineRead, hotspotNameRead,
        hotspotPasswordRead⟩ := v
      obtain ⟨tid, addr, name, pass, wl⟩ := config
      simp only at hs ha hd hn hp
      subst hs ha hd hn hp
      have key : ∀ w : LoadVars, w.separatorFound = true → w.appEngineRead = true →
          w.eepromData = [] → w.config = ⟨tid, addr, [], [], wl⟩ →
          LoadConfig_loop e n (i + 1) w = some ⟨tid, addr, [], [], wl⟩ := by
        intro w a1 a2 a3 a4
        have := ih (i + 1) w a1 a2 a3 (by rw [a4]) (by rw [a4]) (by omega) (by omega)
        rw [this, a4]
      apply key <;>
        (simp only [LoadConfig_step]; split_ifs <;> simp_all)

/-- At the first separator the loop assigns `eepromData` to
`appEngineAddress`; nothing later changes the record. -/
theorem LoadConfig_loop_separator (e : EEPROM) (fuel i : Nat) (v : LoadVars)
    (ha : v.appEngineRead = false)
    (hn : v.config.hotSpotName = []) (hp : v.config.hotSpotPassword = [])
    (hsep : e i = 172) (hi : i < 4095) (hf : 4095 < i + fuel) :
    LoadConfig_loop e fuel i v
      = some { v.config with appEngineAddress := v.eepromData } := by
  obtain ⟨n, rfl⟩ : ∃ n, fuel = n + 1 := ⟨fuel - 1, by omega⟩
  rw [LoadConfig_loop_next e n i v (by rw [hsep]; decide) (by rw [hsep]; decide) (by omega)]
  have hstep : LoadConfig_step v (e i)
      = { v with separatorFound := true, appEngineRead := true, eepromData := [],
                 config := { v.config with appEngineAddress := v.eepromData } } := by
    simp [LoadConfig_step, CONFIGURATION_SEPARATOR, hsep, ha]
  rw [hstep]
  exact LoadConfig_loop_after_separator e n (i + 1) _ rfl rfl rfl hn hp (by omega) (by omega)

/-! ## Closed forms of `LoadConfig` -/

theorem LoadConfig_invalid (st : Store) (h : st.eeprom 0 ≠ 182) :
    LoadConfig st = some (calloc_BridgeConfig, { st with _loaded := true }) := by
  simp [LoadConfig, EEPROM_read, h, calloc_BridgeConfig]

/-- A valid record whose scan meets a terminator, or index 4095, before any
separator: nothing is assigned. -/
theorem LoadConfig_terminated (st : Store) (h0 : st.eeprom 0 = 182) (t : Nat)
    (h4 : 4 ≤ t) (ht : t ≤ 4095)
    (hk : ∀ k, 4 ≤ k → k < t →
      st.eeprom k ≠ 0 ∧ st.eeprom k ≠ 255 ∧ st.eeprom k ≠ 172)
    (hstop : st.eeprom t = 0 ∨ st.eeprom t = 255 ∨ t = 4095) :
    LoadConfig st = some (headerOnly st.eeprom, { st with _loaded := true }) := by
  have hacc := LoadConfig_loop_accumulate st.eeprom (t - 4) (4092 - (t - 4)) 4
    { config := headerOnly st.eeprom, eepromData := [], separatorFound := false,
      appEngineRead := false, hotspotNameRead := false, hotspotPasswordRead := false }
    rfl (fun k h1 h2 => hk k h1 (by omega)) (by omega)
  have e1 : 4092 - (t - 4) + (t - 4) = 4092 := by omega
  have e2 : 4 + (t - 4) = t := by omega
  have e3 : 4092 - (t - 4) = (4091 - (t - 4)) + 1 := by omega
  rw [e1, e2, e3, LoadConfig_loop_stop st.eeprom _ t _ hstop] at hacc
  simp only [LoadConfig, EEPROM_read, h0, if_true, calloc_BridgeConfig]
  simp only [headerOnly] at hacc
  rw [hacc]
  rfl

/-- A valid record whose first separator stands at `j`, with no terminator
before it: the address is the run of bytes from 4 up to `j`, and the rest of
the scan assigns nothing more. -/
theorem LoadConfig_separated (st : Store) (h0 : st.eeprom 0 = 182) (j : Nat)
    (h4 : 4 ≤ j) (hj : j < 4095)
    (hk : ∀ k, 4 ≤ k → k < j →
      st.eeprom k ≠ 0 ∧ st.eeprom k ≠ 255 ∧ st.eeprom k ≠ 172)
    (hsep : st.eeprom j = 172) :
    LoadConfig st
      = some ({ headerOnly st.eeprom with
                  appEngineAddress := (List.range' 4 (j - 4)).map st.eeprom },
              { st with _loaded := true }) := by
  have hacc := LoadConfig_loop_accumulate st.eeprom (j - 4) (4092 - (j - 4)) 4
    { config := headerOnly st.eeprom, eepromData := [], separatorFound := false,
      appEngineRead := false, hotspotNameRead := false, hotspotPasswordRead := false }
    rfl (fun k h1 h2 => hk k h1 (by omega)) (by omega)
  have e1 : 4092 - (j - 4) + (j - 4) = 4092 := by omega
  have e2 : 4 + (j - 4) = j := by omega
  rw [e1, e2, LoadConfig_loop_separator st.eeprom _ j _ rfl rfl rfl hsep hj (by omega)] at hacc
  simp only [LoadConfig, EEPROM_read, h0, if_true, calloc_BridgeConfig]
  simp only [headerOnly, List.nil_append] at hacc
  rw [hacc]
  rfl

/-- From index 4 on, the scan meets a terminator, a separator or index 4095;
`j` is the first such index. -/
theorem first_stop (e : EEPROM) :
    ∃ j, 4 ≤ j ∧ j ≤ 4095 ∧
      (∀ k, 4 ≤ k → k < j → e k ≠ 0 ∧ e k ≠ 255 ∧ e k ≠ 172) ∧
      (e j = 0 ∨ e j = 255 ∨ e j = 172 ∨ j = 4095) := by
  have hex : ∃ j, 4 ≤ j ∧ (e j = 0 ∨ e j = 255 ∨ e j = 172 ∨ j = 4095) :=
    ⟨4095, by omega, Or.inr (Or.inr (Or.inr rfl))⟩
  refine ⟨Nat.find hex, (Nat.find_spec hex).1, ?_, ?_, (Nat.find_spec hex).2⟩
  · exact Nat.find_min' hex ⟨by omega, Or.inr (Or.inr (Or.inr rfl))⟩
  · intro k h1 h2
    have hmin := Nat.find_min hex h2
    refine ⟨fun h => hmin ⟨h1, Or.inl h⟩, fun h => hmin ⟨h1, Or.inr (Or.inl h)⟩,
      fun h => hmin ⟨h1, Or.inr (Or.inr (Or.inl h))⟩⟩

/-- The shape of every record `LoadConfig` returns: some id, an address
without terminator or separator bytes and of at most 4090 characters, empty
hotspot fields and no wifi list. In particular `LoadConfig` always returns. -/
theorem LoadConfig_shape (st : Store) :
    ∃ (t : Nat) (a : Str), (∀ b ∈ a, b ≠ 0 ∧ b ≠ 172 ∧ b ≠ 255) ∧ a.length ≤ 4090 ∧
      LoadConfig st
        = some ({ transmitterId := t, appEngineAddress := a, hotSpotName := [],
                  hotSpotPassword := [], wifiList := none },
                { st with _loaded := true }) := by
  by_cases h0 : st.eeprom 0 = 182
  · obtain ⟨j, h4, hj, hk, hstop⟩ := first_stop st.eeprom
    by_cases hsep : st.eeprom j = 172 ∧ j < 4095
    · refine ⟨_, (List.range' 4 (j - 4)).map st.eeprom, ?_, ?_,
        LoadConfig_separated st h0 j h4 hsep.2 hk hsep.1⟩
      · intro b hb
        obtain ⟨k, hk1, rfl⟩ := List.mem_map.1 hb
        have hk2 := List.mem_range'_1.1 hk1
        have := hk k hk2.1 (by omega)
        exact ⟨this.1, this.2.2, this.2.1⟩
      · simp only [List.length_map, List.length_range']
        omega
    · have hstop2 : st.eeprom j = 0 ∨ st.eeprom j = 255 ∨ j = 4095 := by
        rcases hstop with h | h | h | h
        · exact Or.inl h
        · exact Or.inr (Or.inl h)
        · exact Or.inr (Or.inr (by
            by_contra hne
            exact hsep ⟨h, by omega⟩))
        · exact Or.inr (Or.inr h)
      exact ⟨_, [], by simp, by simp, LoadConfig_terminated st h0 j h4 hj hk hstop2⟩
  · exact ⟨0, [], by simp, by simp, LoadConfig_invalid st h0⟩

/-- `LoadConfig` returns on every store. -/
theorem LoadConfig_total (st : Store) : ∃ cfg st1, LoadConfig st = some (cfg, st1) := by
  obtain ⟨t, a, _, _, h⟩ := LoadConfig_shape st
  exact ⟨_, _, h⟩

/-! ## The writes of `SaveConfig` -/

theorem EEPROM_write_apply (e : EEPROM) (p : Nat) (v : byte) (a : Nat) :
    EEPROM_write e p v a = if a = p ∧ p < EEPROM_SIZE then v else e a := rfl

theorem WriteStringToEEPROM_range (e : EEPROM) (p : Nat) (d : Str) :
    ∀ (n a : Nat), n ≤ d.length →
      (List.range n).foldl (fun e i => WriteEEPROM e (p + i) (d.getD i 0)) e a
        = if p ≤ a ∧ a < p + n ∧ a < EEPROM_SIZE then d.getD (a - p) 0 else e a := by
  intro n
  induction n with
  | zero =>
    intro a _
    have h : ¬ (p ≤ a ∧ a < p + 0 ∧ a < EEPROM_SIZE) := by intro h; omega
    rw [if_neg h]
    rfl
  | succ n ih =>
    intro a hn
    rw [List.range_succ, List.foldl_append, List.foldl_cons, List.foldl_nil]
    show EEPROM_write _ (p + n) (d.getD n 0) a = _
    rw [EEPROM_write_apply, ih a (by omega)]
    by_cases h1 : a = p + n
    · subst h1
      by_cases h2 : p + n < EEPROM_SIZE
      · rw [if_pos ⟨rfl, h2⟩, if_pos ⟨by omega, by omega, h2⟩, Nat.add_sub_cancel_left]
      · rw [if_neg (fun h => h2 h.2), if_neg (fun h => h2 h.2.2), if_neg (fun h => h2 h.2.2)]
    · by_cases h2 : p ≤ a ∧ a < p + n ∧ a < EEPROM_SIZE
      · have h3 : p ≤ a ∧ a < p + (n + 1) ∧ a < EEPROM_SIZE := ⟨h2.1, by omega, h2.2.2⟩
        rw [if_neg (fun h => h1 h.1), if_pos h2, if_pos h3]
      · have h3 : ¬ (p ≤ a ∧ a < p + (n + 1) ∧ a < EEPROM_SIZE) := by
          intro h; exact h2 ⟨h.1, by omega, h.2.2⟩
        rw [if_neg (fun h => h1 h.1), if_neg h2, if_neg h3]

/-- The cell `a` after `WriteStringToEEPROM(position, data)`. -/
theorem WriteStringToEEPROM_apply (e : EEPROM) (p : Nat) (d : Str) (a : Nat) :
    WriteStringToEEPROM e p d a
      = if p ≤ a ∧ a < p + d.length ∧ a < EEPROM_SIZE then d.getD (a - p) 0 else e a :=
  WriteStringToEEPROM_range e p d d.length a (le_refl _)

theorem WriteEEPROM_eq_string (e : EEPROM) (p : Nat) (v : byte) :
    WriteEEPROM e p v = WriteStringToEEPROM e p [v] := by
  funext a
  rw [WriteStringToEEPROM_apply]
  simp only [WriteEEPROM, EEPROM_write_apply, List.length_singleton]
  by_cases h : a = p
  · subst h; simp
  · have : ¬ (p ≤ a ∧ a < p + 1 ∧ a < EEPROM_SIZE) := by intro h2; omega
    rw [if_neg (fun h2 => h h2.1), if_neg this]

/-- Two strings written one behind the other are their concatenation written
at once. -/
theorem WriteStringToEEPROM_append (e : EEPROM) (p q : Nat) (d1 d2 : Str)
    (hq : q = p + d1.length) :
    WriteStringToEEPROM (WriteStringToEEPROM e p d1) q d2
      = WriteStringToEEPROM e p (d1 ++ d2) := by
  subst hq
  funext a
  simp only [WriteStringToEEPROM_apply, List.length_append]
  by_cases h1 : a < EEPROM_SIZE
  · by_cases h2 : p ≤ a
    · by_cases h3 : a < p + d1.length
      · have h4 : ¬ (p + d1.length ≤ a ∧ a < p + d1.length + d2.length ∧ a < EEPROM_SIZE) := by
          intro h; omega
        rw [if_neg h4, if_pos ⟨h2, h3, h1⟩, if_pos ⟨h2, by omega, h1⟩,
          List.getD_append _ _ _ _ (by omega)]
      · by_cases h5 : a < p + d1.length + d2.length
        · rw [if_pos ⟨by omega, h5, h1⟩, if_pos ⟨h2, by omega, h1⟩,
            List.getD_append_right _ _ _ _ (by omega)]
          congr 1
          omega
        · have h4 : ¬ (p + d1.length ≤ a ∧ a < p + d1.length + d2.length ∧ a < EEPROM_SIZE) := by
            intro h; omega
          have h6 : ¬ (p ≤ a ∧ a < p + d1.length ∧ a < EEPROM_SIZE) := by intro h; omega
          have h7 : ¬ (p ≤ a ∧ a < p + (d1.length + d2.length) ∧ a < EEPROM_SIZE) := by
            intro h; omega
          rw [if_neg h4, if_neg h6, if_neg h7]
    · have h4 : ¬ (p + d1.length ≤ a ∧ a < p + d1.length + d2.length ∧ a < EEPROM_SIZE) := by
        intro h; omega
      have h6 : ¬ (p ≤ a ∧ a < p + d1.length ∧ a < EEPROM_SIZE) := by intro h; omega
      have h7 : ¬ (p ≤ a ∧ a < p + (d1.length + d2.length) ∧ a < EEPROM_SIZE) := by
        intro h; omega
      rw [if_neg h4, if_neg h6, if_neg h7]
  · have h4 : ¬ (p + d1.length ≤ a ∧ a < p + d1.length + d2.length ∧ a < EEPROM_SIZE) := by
      intro h; exact h1 h.2.2
    have h6 : ¬ (p ≤ a ∧ a < p + d1.length ∧ a < EEPROM_SIZE) := by intro h; exact h1 h.2.2
    have h7 : ¬ (p ≤ a ∧ a < p + (d1.length + d2.length) ∧ a < EEPROM_SIZE) := by
      intro h; exact h1 h.2.2
    rw [if_neg h4, if_neg h6, if_neg h7]

/-- A string written over a shorter one at the same position hides it. -/
theorem WriteStringToEEPROM_over (e : EEPROM) (p : Nat) (d1 d2 : Str)
    (h : d1.length ≤ d2.length) :
    WriteStringToEEPROM (WriteStringToEEPROM e p d1) p d2 = WriteStringToEEPROM e p d2 := by
  funext a
  simp only [WriteStringToEEPROM_apply]
  by_cases h1 : p ≤ a ∧ a < p + d2.length ∧ a < EEPROM_SIZE
  · rw [if_pos h1, if_pos h1]
  · have h2 : ¬ (p ≤ a ∧ a < p + d1.length ∧ a < EEPROM_SIZE) := by
      intro h3; exact h1 ⟨h3.1, by omega, h3.2.2⟩
    rw [if_neg h1, if_neg h1, if_neg h2]

theorem EEPROM_write_eq_string (e : EEPROM) (p : Nat) (v : byte) :
    EEPROM_write e p v = WriteStringToEEPROM e p [v] :=
  WriteEEPROM_eq_string e p v

theorem savedText_length (r : BridgeConfig) :
    (savedText r).length
      = r.appEngineAddress.length + r.hotSpotName.length + r.hotSpotPassword.length + 4 := by
  simp [savedText]
  omega

theorem savedBytes_length (r : BridgeConfig) :
    (savedBytes r).length
      = r.appEngineAddress.length + r.hotSpotName.length + r.hotSpotPassword.length + 8 := by
  simp [savedBytes, savedText_length]

/-- The sequence of writes of `SaveConfig` (lines 264-311) is one write of
`savedBytes` at 0. -/
theorem SaveConfig_writes (e : EEPROM) (r : BridgeConfig) :
    WriteEEPROM
      (WriteEEPROM
        (WriteStringToEEPROM
          (WriteEEPROM
            (WriteStringToEEPROM
              (WriteEEPROM
                (WriteStringToEEPROM
                  (EEPROM_writeAnything (WriteEEPROM e 0 182) 1 r.transmitterId)
                  4 r.appEngineAddress)
                (4 + r.appEngineAddress.length) CONFIGURATION_SEPARATOR)
              (4 + r.appEngineAddress.length + 1) r.hotSpotName)
            (4 + r.appEngineAddress.length + 1 + r.hotSpotName.length) CONFIGURATION_SEPARATOR)
          (4 + r.appEngineAddress.length + 1 + r.hotSpotName.length + 1) r.hotSpotPassword)
        (4 + r.appEngineAddress.length + 1 + r.hotSpotName.length + 1
          + r.hotSpotPassword.length) CONFIGURATION_SEPARATOR)
      (4 + r.appEngineAddress.length + 1 + r.hotSpotName.length + 1
        + r.hotSpotPassword.length + 1) 0
      = WriteStringToEEPROM e 0 (savedBytes r) := by
  simp only [WriteEEPROM, EEPROM_writeAnything, EEPROM_write_eq_string]
  rw [WriteStringToEEPROM_append e 0 1 [182] _ rfl]
  rw [WriteStringToEEPROM_append e 0 (1 + 1)]
  rw [WriteStringToEEPROM_append e 0 (1 + 2)]
  rw [WriteStringToEEPROM_append _ 4 _ r.appEngineAddress _ rfl]
  rw [WriteStringToEEPROM_append _ 4 (4 + r.appEngineAddress.length + 1)]
  rw [WriteStringToEEPROM_append _ 4 (4 + r.appEngineAddress.length + 1 + r.hotSpotName.length)]
  rw [WriteStringToEEPROM_append _ 4
    (4 + r.appEngineAddress.length + 1 + r.hotSpotName.length + 1)]
  rw [WriteStringToEEPROM_append _ 4
    (4 + r.appEngineAddress.length + 1 + r.hotSpotName.length + 1 + r.hotSpotPassword.length)]
  rw [WriteStringToEEPROM_append _ 4
    (4 + r.appEngineAddress.length + 1 + r.hotSpotName.length + 1 + r.hotSpotPassword.length
      + 1)]
  rw [WriteStringToEEPROM_over _ (1 + 3)]
  rw [WriteStringToEEPROM_append e 0 (1 + 3)]
  · simp [savedBytes, savedText]
  all_goals
    first
    | rfl
    | (simp only [List.length_append, List.length_cons, List.length_nil]; omega)

/-- `SaveConfig` on a loaded store: the cached record is written as
`savedBytes`, the cache is dropped. -/
theorem SaveConfig_loaded (st : Store) (h : st._loaded = true) :
    SaveConfig st
      = some { eeprom := WriteStringToEEPROM st.eeprom 0 (savedBytes st._bridgeConfig),
               _loaded := false, _bridgeConfig := st._bridgeConfig,
               commits := st.commits + 1 } := by
  obtain ⟨e, l, r, k⟩ := st
  simp only at h
  subst h
  simp [SaveConfig, getTransmitterId, getBridgeConfig, SaveConfig_writes]

/-! ## Cells of a saved record -/

theorem saved_cell (e : EEPROM) (r : BridgeConfig) (a : Nat)
    (h1 : a < (savedBytes r).length) (h2 : a < EEPROM_SIZE) :
    WriteStringToEEPROM e 0 (savedBytes r) a = (savedBytes r).getD a 0 := by
  rw [WriteStringToEEPROM_apply, if_pos ⟨Nat.zero_le a, by omega, h2⟩, Nat.sub_zero]

theorem saved_marker (e : EEPROM) (r : BridgeConfig) :
    WriteStringToEEPROM e 0 (savedBytes r) 0 = 182 := by
  rw [saved_cell e r 0 (by rw [savedBytes_length]; omega) (by decide)]
  rfl

theorem saved_text_cell (e : EEPROM) (r : BridgeConfig) (k : Nat)
    (h1 : k < (savedText r).length) (h2 : 4 + k < EEPROM_SIZE) :
    WriteStringToEEPROM e 0 (savedBytes r) (4 + k) = (savedText r).getD k 0 := by
  rw [saved_cell e r (4 + k) (by rw [savedBytes_length]; rw [savedText_length] at h1; omega) h2]
  unfold savedBytes
  rw [List.getD_append_right _ _ _ _ (by simp)]
  simp

theorem saved_address_cell (e : EEPROM) (r : BridgeConfig) (k : Nat)
    (h1 : k < r.appEngineAddress.length) (h2 : 4 + k < EEPROM_SIZE) :
    WriteStringToEEPROM e 0 (savedBytes r) (4 + k) = r.appEngineAddress.get ⟨k, h1⟩ := by
  rw [saved_text_cell e r k (by rw [savedText_length]; omega) h2]
  unfold savedText
  rw [List.getD_append _ _ _ _ h1, List.getD_eq_getElem _ _ h1]
  rfl

theorem saved_separator_cell (e : EEPROM) (r : BridgeConfig)
    (h2 : 4 + r.appEngineAddress.length < EEPROM_SIZE) :
    WriteStringToEEPROM e 0 (savedBytes r) (4 + r.appEngineAddress.length) = 172 := by
  rw [saved_text_cell e r _ (by rw [savedText_length]; omega) h2]
  unfold savedText
  rw [List.getD_append_right _ _ _ _ (le_refl _), Nat.sub_self]
  rfl

theorem SaveConfig_cached_marker (e : EEPROM) (r : BridgeConfig) :
    ∃ st1, SaveConfig (cached e r) = some st1 ∧ st1.eeprom 0 = 182 :=
  ⟨_, SaveConfig_loaded (cached e r) rfl, saved_marker e r⟩

/-- Reading back the address of a saved record: when the address holds no
terminator and no separator and its separator lands below 4095, the scan of
`LoadConfig` returns it. -/
theorem LoadConfig_saved (e : EEPROM) (r : BridgeConfig) (l : Bool) (c : BridgeConfig)
    (k : Nat)
    (hb : ∀ b ∈ r.appEngineAddress, b ≠ 0 ∧ b ≠ 172 ∧ b ≠ 255)
    (hlen : r.appEngineAddress.length ≤ 4090) :
    LoadConfig { eeprom := WriteStringToEEPROM e 0 (savedBytes r), _loaded := l,
                 _bridgeConfig := c, commits := k }
      = some ({ headerOnly (WriteStringToEEPROM e 0 (savedBytes r)) with
                  appEngineAddress := r.appEngineAddress },
              { eeprom := WriteStringToEEPROM e 0 (savedBytes r), _loaded := true,
                _bridgeConfig := c, commits := k }) := by
  have hcell : ∀ k, 4 ≤ k → k < 4 + r.appEngineAddress.length →
      ∃ h : k - 4 < r.appEngineAddress.length,
        WriteStringToEEPROM e 0 (savedBytes r) k = r.appEngineAddress.get ⟨k - 4, h⟩ := by
    intro k h1 h2
    refine ⟨by omega, ?_⟩
    have := saved_address_cell e r (k - 4) (by omega) (by simp only [EEPROM_SIZE]; omega)
    rwa [show 4 + (k - 4) = k by omega] at this
  have h := LoadConfig_separated
    { eeprom := WriteStringToEEPROM e 0 (savedBytes r), _loaded := l, _bridgeConfig := c,
      commits := k }
    (saved_marker e r) (4 + r.appEngineAddress.length) (by omega) (by omega)
    (by
      intro k h1 h2
      obtain ⟨hk, hv⟩ := hcell k h1 h2
      have hm := hb _ (List.get_mem r.appEngineAddress (k - 4) hk)
      simp only
      rw [hv]
      exact ⟨hm.1, hm.2.2, hm.2.1⟩)
    (saved_separator_cell e r (by simp only [EEPROM_SIZE]; omega))
  rw [h]
  have haddr : (List.range' 4 (4 + r.appEngineAddress.length - 4)).map
      (WriteStringToEEPROM e 0 (savedBytes r)) = r.appEngineAddress := by
    apply List.ext_getElem
    · simp
    · intro n h1 h2
      simp only [List.getElem_map, List.getElem_range'_1]
      obtain ⟨hk, hv⟩ := hcell (4 + n) (by omega) (by omega)
      rw [hv]
      simp
  simp only [haddr]

/-! ## Saving what was just saved -/

/-- `SaveConfig` on a store that is not loaded is `SaveConfig` on the store
`LoadConfig` leaves, with the record it returns as cache. -/
theorem SaveConfig_unloaded (st : Store) (h : st._loaded = false) (cfg : BridgeConfig)
    (st1 : Store) (hload : LoadConfig st = some (cfg, st1)) :
    SaveConfig st = SaveConfig { st with _loaded := true, _bridgeConfig := cfg } := by
  obtain ⟨t, a, _, _, hshape⟩ := LoadConfig_shape st
  rw [hshape] at hload
  obtain ⟨e, l, r, k⟩ := st
  simp only at h
  subst h
  simp only [Option.some.injEq, Prod.mk.injEq] at hload
  obtain ⟨h1, _⟩ := hload
  subst h1
  simp only [SaveConfig, hshape, getTransmitterId, getBridgeConfig]
  rfl

/-- Reloading a saved record with empty hotspot fields gives a record with
the same encoding: the three low id bytes are read back and the fourth id
byte is rewritten by the text. -/
theorem savedBytes_reload (e : EEPROM) (r : BridgeConfig)
    (hn : r.hotSpotName = []) (hp : r.hotSpotPassword = []) :
    savedBytes { headerOnly (WriteStringToEEPROM e 0 (savedBytes r)) with
                   appEngineAddress := r.appEngineAddress }
      = savedBytes r := by
  have hlen := savedBytes_length r
  have c1 : WriteStringToEEPROM e 0 (savedBytes r) 1 = Fin.ofNat r.transmitterId :=
    saved_cell e r 1 (by omega) (by decide)
  have c2 : WriteStringToEEPROM e 0 (savedBytes r) 2 = Fin.ofNat (r.transmitterId / 256) :=
    saved_cell e r 2 (by omega) (by decide)
  have c3 : WriteStringToEEPROM e 0 (savedBytes r) 3 = Fin.ofNat (r.transmitterId / 65536) :=
    saved_cell e r 3 (by omega) (by decide)
  have b1 : ∀ x y z w : Fin 256,
      (Fin.ofNat (x.val + 256 * y.val + 65536 * z.val + 16777216 * w.val) : Fin 256) = x := by
    intro x y z w
    apply Fin.ext
    show (x.val + 256 * y.val + 65536 * z.val + 16777216 * w.val) % 256 = x.val
    omega
  have b2 : ∀ x y z w : Fin 256,
      (Fin.ofNat ((x.val + 256 * y.val + 65536 * z.val + 16777216 * w.val) / 256) : Fin 256)
        = y := by
    intro x y z w
    apply Fin.ext
    show ((x.val + 256 * y.val + 65536 * z.val + 16777216 * w.val) / 256) % 256 = y.val
    omega
  have b3 : ∀ x y z w : Fin 256,
      (Fin.ofNat ((x.val + 256 * y.val + 65536 * z.val + 16777216 * w.val) / 65536) : Fin 256)
        = z := by
    intro x y z w
    apply Fin.ext
    show ((x.val + 256 * y.val + 65536 * z.val + 16777216 * w.val) / 65536) % 256 = z.val
    omega
  generalize WriteStringToEEPROM e 0 (savedBytes r) = e1 at c1 c2 c3
  simp only [savedBytes, savedText, headerOnly, EEPROM_readAnything, EEPROM_read, hn, hp,
    Nat.reduceAdd, b1, b2, b3, c1, c2, c3]

/-- Two saves in a row from a loaded store whose cached hotspot fields are
empty and whose address holds no terminator or separator byte and has at
most 4090 characters: the second save, which reloads first, leaves the EEPROM
as the first left it. -/
theorem SaveConfig_twice_loaded (st : Store) (hl : st._loaded = true)
    (hn : st._bridgeConfig.hotSpotName = []) (hp : st._bridgeConfig.hotSpotPassword = [])
    (hb : ∀ b ∈ st._bridgeConfig.appEngineAddress, b ≠ 0 ∧ b ≠ 172 ∧ b ≠ 255)
    (hlen : st._bridgeConfig.appEngineAddress.length ≤ 4090) :
    ∃ st1 st2, SaveConfig st = some st1 ∧ SaveConfig st1 = some st2 ∧
      st2.eeprom = st1.eeprom := by
  have hload := LoadConfig_saved st.eeprom st._bridgeConfig false st._bridgeConfig
    (st.commits + 1) hb hlen
  have h2 := SaveConfig_unloaded _ rfl _ _ hload
  refine ⟨_, _, SaveConfig_loaded st hl, h2.trans (SaveConfig_loaded _ rfl), ?_⟩
  show WriteStringToEEPROM (WriteStringToEEPROM st.eeprom 0 (savedBytes st._bridgeConfig)) 0
      (savedBytes _) = WriteStringToEEPROM st.eeprom 0 (savedBytes st._bridgeConfig)
  rw [savedBytes_reload st.eeprom st._bridgeConfig hn hp]
  exact WriteStringToEEPROM_over _ _ _ _ (le_refl _)

/-- Two saves in a row from a store that is not loaded, over any EEPROM
content: the second save leaves the EEPROM as the first left it. -/
theorem SaveConfig_twice_unloaded (st : Store) (hl : st._loaded = false) :
    ∃ st1 st2, SaveConfig st = some st1 ∧ SaveConfig st1 = some st2 ∧
      st2.eeprom = st1.eeprom := by
  obtain ⟨t, a, hb, hlen, hshape⟩ := LoadConfig_shape st
  rw [SaveConfig_unloaded st hl _ _ hshape]
  exact SaveConfig_twice_loaded _ rfl rfl rfl hb hlen

/-! ## What a load reads -/

/-- With a valid marker the id of the record `LoadConfig` returns is the raw
value of the cells 1 .. 4. -/
theorem LoadConfig_valid (st : Store) (h0 : st.eeprom 0 = 182) :
    ∃ a : Str, LoadConfig st
      = some ({ headerOnly st.eeprom with appEngineAddress := a },
              { st with _loaded := true }) := by
  obtain ⟨j, h4, hj, hk, hstop⟩ := first_stop st.eeprom
  by_cases hsep : st.eeprom j = 172 ∧ j < 4095
  · exact ⟨_, LoadConfig_separated st h0 j h4 hsep.2 hk hsep.1⟩
  · have hstop2 : st.eeprom j = 0 ∨ st.eeprom j = 255 ∨ j = 4095 := by
      rcases hstop with h | h | h | h
      · exact Or.inl h
      · exact Or.inr (Or.inl h)
      · exact Or.inr (Or.inr (by
          by_contra hne
          exact hsep ⟨h, by omega⟩))
      · exact Or.inr (Or.inr h)
    exact ⟨[], LoadConfig_terminated st h0 j h4 hj hk hstop2⟩

/-- The loop reads the cells from its start index up to the index where it
stops and no other: on two EEPROM contents that agree from `i` up to an index
`t` at which the first holds a terminator, or which is 4095, it returns the
same. -/
theorem LoadConfig_loop_congr (e e2 : EEPROM) (t : Nat)
    (hstop : e t = 0 ∨ e t = 255 ∨ t = 4095) :
    ∀ (fuel i : Nat) (v : LoadVars), i ≤ t → (∀ k, i ≤ k → k ≤ t → e2 k = e k) →
      LoadConfig_loop e2 fuel i v = LoadConfig_loop e fuel i v := by
  intro fuel
  induction fuel with
  | zero => intro i v _ _; rfl
  | succ n ih =>
    intro i v hi hag
    have hei : e2 i = e i := hag i (le_refl i) hi
    by_cases h : e i = 0 ∨ e i = 255 ∨ i = 4095
    · rw [LoadConfig_loop_stop e n i v h, LoadConfig_loop_stop e2 n i v (by rw [hei]; exact h)]
    · have hne : i ≠ t := by
        intro heq
        subst heq
        exact h hstop
      simp only [not_or] at h
      rw [LoadConfig_loop_next e n i v h.1 h.2.1 h.2.2,
        LoadConfig_loop_next e2 n i v (by rw [hei]; exact h.1) (by rw [hei]; exact h.2.1) h.2.2,
        hei]
      exact ih (i + 1) _ (by omega) (fun k h1 h2 => hag k (by omega) h2)

/-- The record `LoadConfig` returns is decided by the cells from 0 up to an
index `t ≥ 4` at which the scan has to stop. -/
theorem loaded_congr (st st2 : Store) (t : Nat) (h4 : 4 ≤ t)
    (hstop : st.eeprom t = 0 ∨ st.eeprom t = 255 ∨ t = 4095)
    (hag : ∀ k, k ≤ t → st2.eeprom k = st.eeprom k) :
    loaded st2 = loaded st := by
  have hloop := LoadConfig_loop_congr st.eeprom st2.eeprom t hstop
  simp only [loaded, LoadConfig, EEPROM_read, EEPROM_readAnything,
    hag 0 (by omega), hag 1 (by omega), hag (1 + 1) (by omega), hag (1 + 2) (by omega),
    hag (1 + 3) (by omega)]
  by_cases h0 : st.eeprom 0 = 182
  · simp only [h0, if_true]
    rw [hloop 4092 4 _ h4 (fun k _ h2 => hag k h2)]
    cases LoadConfig_loop st.eeprom 4092 4 _ <;> rfl
  · simp only [h0, if_false, Option.map_some']

/-- After the first separator the flag `separatorFound` stays set and the
data collected for the next field stays empty. -/
theorem LoadConfig_step_separatorFound (v : LoadVars) (newChar : byte)
    (h : v.separatorFound = true) :
    (LoadConfig_step v newChar).separatorFound = true
      ∧ (LoadConfig_step v newChar).eepromData = [] := by
  simp only [LoadConfig_step]
  split_ifs <;> simp_all

/-- The last byte of the text `SaveConfig` writes is the NUL. -/
theorem savedText_last (r : BridgeConfig) :
    (savedText r).getD
      (r.appEngineAddress.length + r.hotSpotName.length + r.hotSpotPassword.length + 3) 0
      = 0 := by
  unfold savedText
  rw [List.getD_append_right _ _ _ _ (by omega)]
  have e1 : r.appEngineAddress.length + r.hotSpotName.length + r.hotSpotPassword.length + 3
      - r.appEngineAddress.length
      = (r.hotSpotName.length + r.hotSpotPassword.length + 2) + 1 := by omega
  rw [e1, List.getD_cons_succ, List.getD_append_right _ _ _ _ (by omega)]
  have e2 : r.hotSpotName.length + r.hotSpotPassword.length + 2 - r.hotSpotName.length
      = (r.hotSpotPassword.length + 1) + 1 := by omega
  rw [e2, List.getD_cons_succ, List.getD_append_right _ _ _ _ (by omega)]
  have e3 : r.hotSpotPassword.length + 1 - r.hotSpotPassword.length = 1 := by omega
  rw [e3]
  rfl

/-- A save leaves every cell beyond the encoding, and every cell at or above
the capacity, as it was. -/
theorem SaveConfig_cached_frame (e : EEPROM) (r : BridgeConfig) :
    ∃ st1, SaveConfig (cached e r) = some st1 ∧
      ∀ a, (savedBytes r).length ≤ a ∨ EEPROM_SIZE ≤ a → st1.eeprom a = e a := by
  refine ⟨_, SaveConfig_loaded (cached e r) rfl, ?_⟩
  intro a h
  show WriteStringToEEPROM e 0 (savedBytes r) a = e a
  rw [WriteStringToEEPROM_apply, if_neg]
  intro h3
  omega

/-- A save whose NUL lands below the capacity leaves it in its cell. -/
theorem SaveConfig_cached_terminator (e : EEPROM) (r : BridgeConfig)
    (h : 7 + r.appEngineAddress.length + r.hotSpotName.length + r.hotSpotPassword.length
      < EEPROM_SIZE) :
    ∃ st1, SaveConfig (cached e r) = some st1 ∧
      st1.eeprom
        (7 + r.appEngineAddress.length + r.hotSpotName.length + r.hotSpotPassword.length)
        = 0 := by
  refine ⟨_, SaveConfig_loaded (cached e r) rfl, ?_⟩
  show WriteStringToEEPROM e 0 (savedBytes r) _ = 0
  have e1 : 7 + r.appEngineAddress.length + r.hotSpotName.length + r.hotSpotPassword.length
      = 4 + (r.appEngineAddress.length + r.hotSpotName.length + r.hotSpotPassword.length + 3) := by
    omega
  rw [e1, saved_text_cell e r _ (by rw [savedText_length]; omega) (by omega), savedText_last]

/-! ## The cache -/

theorem getBridgeConfig_loaded (st : Store) (h : st._loaded = true) :
    getBridgeConfig st = some (st._bridgeConfig, st) := by
  simp [getBridgeConfig, h]

/-- `getBridgeConfig` always returns; the store it leaves is loaded, has the
EEPROM content it found and caches the record it returns, which is the
record cached before when the store was loaded and a record fresh from
`LoadConfig`, without a wifi list, when it was not. -/
theorem getBridgeConfig_shape (st : Store) :
    ∃ cfg, getBridgeConfig st
        = some (cfg, { eeprom := st.eeprom, _loaded := true, _bridgeConfig := cfg,
                       commits := st.commits })
      ∧ (st._loaded = true → cfg = st._bridgeConfig)
      ∧ (st._loaded = false → cfg.wifiList = none) := by
  obtain ⟨e, l, r, k⟩ := st
  cases l with
  | true => exact ⟨r, by simp [getBridgeConfig], fun _ => rfl, fun h => by simp at h⟩
  | false =>
    obtain ⟨t, a, _, _, h⟩ := LoadConfig_shape
      { eeprom := e, _loaded := false, _bridgeConfig := r, commits := k }
    exact ⟨{ transmitterId := t, appEngineAddress := a, hotSpotName := [],
             hotSpotPassword := [], wifiList := none },
      by simp [getBridgeConfig, h], fun h => by simp at h, fun _ => rfl⟩

/-- A store has a wifi count exactly when it is loaded and its cached record
has a list; the count is the number of entries. -/
theorem getWifiCount_value (st : Store) (n : Nat)
    (h : (getWifiCount st).map Outcome.value = some (some n)) :
    st._loaded = true ∧ ∃ l, st._bridgeConfig.wifiList = some l ∧ l.length = n := by
  obtain ⟨cfg, hcfg, h1, h2⟩ := getBridgeConfig_shape st
  simp only [getWifiCount, hcfg] at h
  cases hl : st._loaded with
  | false =>
    rw [h2 hl] at h
    simp [Outcome.value] at h
  | true =>
    rw [h1 hl] at h
    cases hw : st._bridgeConfig.wifiList with
    | none =>
      rw [hw] at h
      simp [Outcome.value] at h
    | some l =>
      rw [hw] at h
      simp only [Option.map_some', Outcome.value, Option.some.injEq, LinkedList_size] at h
      exact ⟨rfl, l, rfl, h⟩

/-- The `_loaded` flag: on every store, whether or not the marker byte is
valid, each of `setTransmitterId`, `setAppEngineAddress`, `saveSSID`,
`getWifiData`, `getWifiCount`, `getTransmitterId` and `getAppEngineAddress`
leaves the store with `_loaded` set (the three calls that use the wifi list
also when they stop on the null list pointer, which comes after the load);
`SaveConfig` always returns and leaves `_loaded` cleared; and on a loaded
store the four getters do not decode again: they leave the store as it is and
return the cached field. -/
theorem lifecycle_flag (st : Store) (t : Nat) (a n p : Str) (u : WifiData)
    (i : Int) :
    (∃ st1, setTransmitterId st t = some st1 ∧ st1._loaded = true)
    ∧ (∃ st1, setAppEngineAddress st a = some st1 ∧ st1._loaded = true)
    ∧ (∃ o, saveSSID st n p = some o ∧ o.store._loaded = true)
    ∧ (∃ o, getWifiData u st i = some o ∧ o.store._loaded = true)
    ∧ (∃ o, getWifiCount st = some o ∧ o.store._loaded = true)
    ∧ (∃ v st1, getTransmitterId st = some (v, st1) ∧ st1._loaded = true)
    ∧ (∃ v st1, getAppEngineAddress st = some (v, st1) ∧ st1._loaded = true)
    ∧ (∃ st1, SaveConfig st = some st1 ∧ st1._loaded = false)
    ∧ (st._loaded = true →
        getTransmitterId st = some (st._bridgeConfig.transmitterId, st)
        ∧ getAppEngineAddress st = some (st._bridgeConfig.appEngineAddress, st)
        ∧ (∃ o, getWifiCount st = some o ∧ o.store = st)
        ∧ (∃ o, getWifiData u st i = some o ∧ o.store = st)) := by
  obtain ⟨cfg, hcfg, _, _⟩ := getBridgeConfig_shape st
  refine ⟨?_, ?_, ?_, ?_, ?_, ?_, ?_, ?_, ?_⟩
  · simp only [setTransmitterId, hcfg]
    exact ⟨_, rfl, rfl⟩
  · simp only [setAppEngineAddress, hcfg]
    exact ⟨_, rfl, rfl⟩
  · simp only [saveSSID, hcfg]
    cases cfg.wifiList <;> exact ⟨_, rfl, rfl⟩
  · simp only [getWifiData, hcfg]
    cases cfg.wifiList <;> exact ⟨_, rfl, rfl⟩
  · simp only [getWifiCount, hcfg]
    cases cfg.wifiList <;> exact ⟨_, rfl, rfl⟩
  · simp only [getTransmitterId, hcfg]
    exact ⟨_, _, rfl, rfl⟩
  · simp only [getAppEngineAddress, hcfg]
    split_ifs <;> exact ⟨_, _, rfl, rfl⟩
  · by_cases hl : st._loaded = true
    · exact ⟨_, SaveConfig_loaded st hl, rfl⟩
    · obtain ⟨c, s1, hload⟩ := LoadConfig_total st
      rw [SaveConfig_unloaded st (by simpa using hl) c s1 hload]
      exact ⟨_, SaveConfig_loaded _ rfl, rfl⟩
  · intro hl
    have hg := getBridgeConfig_loaded st hl
    refine ⟨by simp only [getTransmitterId, hg], ?_, ?_, ?_⟩
    · simp only [getAppEngineAddress, hg]
      split_ifs with h
      · rfl
      · have h2 : st._bridgeConfig.appEngineAddress = [] :=
          List.eq_nil_of_length_eq_zero (by omega)
        rw [h2]
    · simp only [getWifiCount, hg]
      cases st._bridgeConfig.wifiList <;> exact ⟨_, rfl, rfl⟩
    · simp only [getWifiData, hg]
      cases st._bridgeConfig.wifiList <;> exact ⟨_, rfl, rfl⟩

/-- The address survives a save: for a loaded store whose cached address holds
none of the bytes 0x00, 0xAC, 0xFF and has at most 4090 characters, over any
EEPROM content, `SaveConfig` returns, the following `LoadConfig` returns a
record with exactly that address and a null wifi list pointer, and the next
`getAppEngineAddress` returns that address. -/
theorem address_round_trip (st : Store) (hl : st._loaded = true)
    (hb : ∀ b ∈ st._bridgeConfig.appEngineAddress, b ≠ 0 ∧ b ≠ 172 ∧ b ≠ 255)
    (hlen : st._bridgeConfig.appEngineAddress.length ≤ 4090) :
    ∃ st1 cfg st2, SaveConfig st = some st1 ∧ LoadConfig st1 = some (cfg, st2) ∧
      cfg.appEngineAddress = st._bridgeConfig.appEngineAddress ∧
      cfg.wifiList = none ∧
      (getAppEngineAddress st1).map Prod.fst = some st._bridgeConfig.appEngineAddress := by
  have hload := LoadConfig_saved st.eeprom st._bridgeConfig false st._bridgeConfig
    (st.commits + 1) hb hlen
  refine ⟨_, _, _, SaveConfig_loaded st hl, hload, rfl, rfl, ?_⟩
  simp only [getAppEngineAddress, getBridgeConfig, Bool.not_false, if_true, hload]
  by_cases h : st._bridgeConfig.appEngineAddress.length > 0
  · simp [h]
  · have h2 : st._bridgeConfig.appEngineAddress = [] :=
      List.eq_nil_of_length_eq_zero (by omega)
    simp [h2]

/-! ## The stores the code can produce -/

/-- `getBridgeConfig` hands back a plain record whenever the record of the
store is plain: a load returns nothing else. -/
theorem getBridgeConfig_plain (st : Store) (h : plain st._bridgeConfig) :
    ∃ cfg, getBridgeConfig st
        = some (cfg, { eeprom := st.eeprom, _loaded := true, _bridgeConfig := cfg,
                       commits := st.commits })
      ∧ plain cfg := by
  obtain ⟨e, l, r, k⟩ := st
  cases l with
  | true => exact ⟨r, by simp [getBridgeConfig], h⟩
  | false =>
    obtain ⟨t, a, _, _, hl⟩ := LoadConfig_shape
      { eeprom := e, _loaded := false, _bridgeConfig := r, commits := k }
    exact ⟨{ transmitterId := t, appEngineAddress := a, hotSpotName := [],
             hotSpotPassword := [], wifiList := none },
      by simp [getBridgeConfig, hl], rfl, rfl, rfl⟩

/-- Every store the code can produce holds a plain record: no call sets a
hotspot field and no call allocates the wifi list. -/
theorem Reachable_plain (st : Store) (h : Reachable st) : plain st._bridgeConfig := by
  induction h with
  | fresh e => exact ⟨rfl, rfl, rfl⟩
  | setTransmitterId st st1 t _ hop ih =>
    obtain ⟨cfg, hcfg, hp⟩ := getBridgeConfig_plain st ih
    simp only [setTransmitterId, hcfg, Option.some.injEq] at hop
    subst hop
    exact hp
  | setAppEngineAddress st st1 a _ hop ih =>
    obtain ⟨cfg, hcfg, hp⟩ := getBridgeConfig_plain st ih
    simp only [setAppEngineAddress, hcfg, Option.some.injEq] at hop
    subst hop
    exact hp
  | saveSSID st st1 n p _ hop ih =>
    obtain ⟨cfg, hcfg, hp⟩ := getBridgeConfig_plain st ih
    simp [saveSSID, hcfg, hp.2.2] at hop
  | getWifiData u st st1 i w _ hop ih =>
    obtain ⟨cfg, hcfg, hp⟩ := getBridgeConfig_plain st ih
    simp [getWifiData, hcfg, hp.2.2] at hop
  | getWifiCount st st1 n _ hop ih =>
    obtain ⟨cfg, hcfg, hp⟩ := getBridgeConfig_plain st ih
    simp [getWifiCount, hcfg, hp.2.2] at hop
  | getTransmitterId st st1 v _ hop ih =>
    obtain ⟨cfg, hcfg, hp⟩ := getBridgeConfig_plain st ih
    simp only [getTransmitterId, hcfg, Option.some.injEq, Prod.mk.injEq] at hop
    obtain ⟨_, hst⟩ := hop
    subst hst
    exact hp
  | getAppEngineAddress st st1 v _ hop ih =>
    obtain ⟨cfg, hcfg, hp⟩ := getBridgeConfig_plain st ih
    simp only [getAppEngineAddress, hcfg] at hop
    split_ifs at hop <;>
      (simp only [Option.some.injEq, Prod.mk.injEq] at hop
       obtain ⟨_, hst⟩ := hop
       subst hst
       exact hp)
  | SaveConfig st st1 _ hop ih =>
    by_cases hl : st._loaded = true
    · rw [SaveConfig_loaded st hl, Option.some.injEq] at hop
      subst hop
      exact ih
    · obtain ⟨t, a, _, _, hload⟩ := LoadConfig_shape st
      rw [SaveConfig_unloaded st (by simpa using hl) _ _ hload,
        SaveConfig_loaded _ rfl, Option.some.injEq] at hop
      subst hop
      exact ⟨rfl, rfl, rfl⟩

/-- On every store the code can produce `getWifiData` and `getWifiCount` stop
on the null list pointer, at every position. -/
theorem wifi_getters_stop_on_reachable_store (st : Store) (h : Reachable st)
    (u : WifiData) (position : Int) :
    (getWifiData u st position).map Outcome.value = some none
      ∧ (getWifiCount st).map Outcome.value = some none := by
  obtain ⟨cfg, hcfg, hp⟩ := getBridgeConfig_plain st (Reachable_plain st h)
  simp [getWifiData, getWifiCount, hcfg, hp.2.2, Outcome.value]

/-- Two saves with a hotspot name in the cache, a cache no call of the source
produces: with the record
`namedHotspot` (address `a`, hotspot name `b`) cached over an erased EEPROM,
the first `SaveConfig` leaves `182, 0, 0, 0, 'a', ¬, 'b', ¬, ¬, NUL` in the
cells 0 .. 9 and the second, which reloads first, leaves
`182, 0, 0, 0, 'a', ¬, ¬, ¬, NUL, NUL`: the reload has lost the hotspot
name. -/
theorem second_save_differs_with_hotspot_name :
    ((SaveConfig (cached erased namedHotspot)).map (fun st => cells st.eeprom 10)
      = some [182, 0, 0, 0, 97, 172, 98, 172, 172, 0])
    ∧ (((SaveConfig (cached erased namedHotspot)).bind SaveConfig).map
        (fun st => cells st.eeprom 10)
      = some [182, 0, 0, 0, 97, 172, 172, 172, 0, 0]) := by
  constructor <;> decide

/-- `getWifiData` makes no range check of its own. On a store with the
wifi count `n` it returns a `WifiData` value for every position: for
`position ≥ n` or `position < 0` the value `u` the list hands back for an
index outside its entries, and for `0 ≤ position < n` the entry of the list
at that position. -/
theorem getWifiData_with_list (u : WifiData) (st : Store) (n : Nat)
    (position : Int) (hn : (getWifiCount st).map Outcome.value = some (some n)) :
    (position < 0 ∨ (n : Int) ≤ position →
      (getWifiData u st position).map Outcome.value = some (some u))
    ∧ (0 ≤ position ∧ position < n →
      ∃ w, st._bridgeConfig.wifiEntries.get? position.toNat = some w
        ∧ (getWifiData u st position).map Outcome.value = some (some w)) := by
  obtain ⟨hl, l, hw, hlen⟩ := getWifiCount_value st n hn
  have hg := getBridgeConfig_loaded st hl
  subst hlen
  constructor
  · intro hp
    have hnot : ¬ (0 ≤ position ∧ position < (l.length : Int)) := by omega
    simp only [getWifiData, hg, hw, Option.map_some', Outcome.value, LinkedList_get,
      if_neg hnot]
  · intro hp
    have hlt : position.toNat < l.length := by omega
    refine ⟨l.get ⟨position.toNat, hlt⟩, ?_, ?_⟩
    · simp only [BridgeConfig.wifiEntries, hw]
      exact List.get?_eq_get hlt
    · simp only [getWifiData, hg, hw, Option.map_some', Outcome.value, LinkedList_get,
        if_pos hp, List.getD_eq_getElem _ _ hlt]
      rfl

/-! ## Properties of the record format -/

/-- C1 (full round trip), evaluated on the code: starting from an erased
EEPROM, `setTransmitterId(123456)` and `setAppEngineAddress("x.example.com")`
cache the record with id 123456; after `SaveConfig` the record `LoadConfig`
returns has the id 2013389376: the address, written from offset 4, has
replaced the fourth id byte by its first character `x` (0x78). -/
theorem C1_round_trip_changes_record :
    (((setTransmitterId (unloaded erased) 123456).bind
        (fun st => setAppEngineAddress st exampleAddress)).map (fun st => st._bridgeConfig)
      = some { transmitterId := 123456, appEngineAddress := exampleAddress,
               hotSpotName := [], hotSpotPassword := [], wifiList := none })
    ∧ ((((setTransmitterId (unloaded erased) 123456).bind
        (fun st => setAppEngineAddress st exampleAddress)).bind SaveConfig).bind loaded
      = some { transmitterId := 2013389376, appEngineAddress := exampleAddress,
               hotSpotName := [], hotSpotPassword := [], wifiList := none }) := by
  constructor <;> decide

/-- C2 (address round trip), evaluated on the code at the example: on a fresh
object over an erased EEPROM, `setTransmitterId(123456)`,
`setAppEngineAddress("x.example.com")` and `SaveConfig()` are followed by a
`getAppEngineAddress()` that returns `x.example.com`, and by a
`getWifiCount()` that does not return 0: the reloaded record has a null wifi
list pointer and the call dereferences it. -/
theorem C2_wifi_count_stops_after_round_trip :
    (((((setTransmitterId (unloaded erased) 123456).bind
          (fun st => setAppEngineAddress st exampleAddress)).bind SaveConfig).bind
        getAppEngineAddress).map Prod.fst = some exampleAddress)
    ∧ (((((setTransmitterId (unloaded erased) 123456).bind
          (fun st => setAppEngineAddress st exampleAddress)).bind SaveConfig).bind
        getWifiCount).map Outcome.value = some none) := by
  constructor <;> decide

/-- C3 (transmitter id persistence), evaluated on the code: on an erased
EEPROM, `setTransmitterId(1)`, `SaveConfig()` and then `getTransmitterId()`
return 2885681153 = 1 + 0xAC * 2^24: the separator of the empty address,
written at offset 4, has replaced the fourth id byte. -/
theorem C3_transmitter_id_not_kept :
    (((setTransmitterId (unloaded erased) 1).bind SaveConfig).bind getTransmitterId).map
      Prod.fst = some 2885681153 := by
  decide

/-- C4 (fields assigned in order), evaluated on the code: for the valid
record whose text from offset 4 is `a¬n¬p¬` and a NUL, `LoadConfig` returns
the address `a` and an empty hotspot name and password, not `n` and `p`. -/
theorem C4_later_fields_empty :
    loaded (unloaded threeFields)
      = some { transmitterId := 1627389952, appEngineAddress := [97], hotSpotName := [],
               hotSpotPassword := [], wifiList := none } := by
  decide

/-- C5 (wifi pairs decoded in order), evaluated on the code: for the valid
record that holds the two complete pairs `(s, q)` and `(t, r)` after the
hotspot password, `LoadConfig` returns a record without a wifi list, so with
no wifi entry. -/
theorem C5_wifi_pairs_not_decoded :
    (loaded (unloaded twoPairs)).map (fun c => (c.wifiList, c.wifiEntries))
      = some (none, []) := by
  decide

/-- C6 (marker absence): whenever byte 0 is not 182, `LoadConfig` returns,
whatever the other bytes are, the record with id 0, three empty strings and
no wifi entry, and leaves the store loaded over the same EEPROM content. -/
theorem C6_marker_absence (st : Store) (h : st.eeprom 0 ≠ 182) :
    LoadConfig st
      = some ({ transmitterId := 0, appEngineAddress := [], hotSpotName := [],
                hotSpotPassword := [], wifiList := none },
              { eeprom := st.eeprom, _loaded := true, _bridgeConfig := st._bridgeConfig,
                commits := st.commits })
    ∧ BridgeConfig.wifiEntries
        { transmitterId := 0, appEngineAddress := [], hotSpotName := [],
          hotSpotPassword := [], wifiList := none } = [] :=
  ⟨LoadConfig_invalid st h, rfl⟩

/-- C6, the instance of the example: an EEPROM filled with 0xFF decodes to
the empty record and the store becomes loaded. -/
theorem C6_marker_absence_witness :
    (unloaded erased).eeprom 0 ≠ 182
    ∧ (LoadConfig (unloaded erased)
        = some ({ transmitterId := 0, appEngineAddress := [], hotSpotName := [],
                  hotSpotPassword := [], wifiList := none },
                { eeprom := (unloaded erased).eeprom, _loaded := true,
                  _bridgeConfig := (unloaded erased)._bridgeConfig,
                  commits := (unloaded erased).commits })
      ∧ BridgeConfig.wifiEntries
          { transmitterId := 0, appEngineAddress := [], hotSpotName := [],
            hotSpotPassword := [], wifiList := none } = []) :=
  ⟨by decide, C6_marker_absence (unloaded erased) (by decide)⟩

/-- C7 (terminator precedence): for a valid record, let `t` with
`4 ≤ t ≤ 4095` be the first index from 4 on that holds 0x00 or 0xFF, or 4095
when there is none below it. If no separator stands at the indices
`4 .. t - 1`, `LoadConfig` returns a record with an empty address: the bytes
collected before `t` are dropped, whether the scan stops on 0x00, on 0xFF or
on index 4095. -/
theorem C7_terminator_precedence (st : Store) (t : Nat) (h0 : st.eeprom 0 = 182)
    (h4 : 4 ≤ t) (ht : t ≤ 4095)
    (hfirst : ∀ k, 4 ≤ k → k < t → st.eeprom k ≠ 0 ∧ st.eeprom k ≠ 255)
    (hstop : st.eeprom t = 0 ∨ st.eeprom t = 255 ∨ t = 4095)
    (hsep : ∀ k, 4 ≤ k → k < t → st.eeprom k ≠ 172) :
    ∃ cfg st1, LoadConfig st = some (cfg, st1) ∧ cfg.appEngineAddress = [] :=
  ⟨_, _, LoadConfig_terminated st h0 t h4 ht
    (fun k h1 h2 => ⟨(hfirst k h1 h2).1, (hfirst k h1 h2).2, hsep k h1 h2⟩) hstop, rfl⟩

/-- C7 at the record whose text `ab` meets the NUL at index 6 before any
separator: the address comes back empty. -/
theorem C7_terminator_precedence_witness :
    (unloaded cutField).eeprom 0 = 182 ∧ 4 ≤ 6 ∧ 6 ≤ 4095
    ∧ (∀ k, 4 ≤ k → k < 6 →
        (unloaded cutField).eeprom k ≠ 0 ∧ (unloaded cutField).eeprom k ≠ 255)
    ∧ ((unloaded cutField).eeprom 6 = 0 ∨ (unloaded cutField).eeprom 6 = 255 ∨ 6 = 4095)
    ∧ (∀ k, 4 ≤ k → k < 6 → (unloaded cutField).eeprom k ≠ 172)
    ∧ ∃ cfg st1, LoadConfig (unloaded cutField) = some (cfg, st1) ∧ cfg.appEngineAddress = [] :=
  have hfirst : ∀ k, 4 ≤ k → k < 6 →
      (unloaded cutField).eeprom k ≠ 0 ∧ (unloaded cutField).eeprom k ≠ 255 := by
    intro k h1 h2
    interval_cases k <;> decide
  have hsep : ∀ k, 4 ≤ k → k < 6 → (unloaded cutField).eeprom k ≠ 172 := by
    intro k h1 h2
    interval_cases k <;> decide
  ⟨by decide, by decide, by decide, hfirst, Or.inl (by decide), hsep,
    C7_terminator_precedence (unloaded cutField) 6 (by decide) (by decide) (by decide)
      hfirst (Or.inl (by decide)) hsep⟩

/-- C8 (encoded layout), evaluated on the code: on an erased EEPROM,
`setTransmitterId(0x04030201)`, `setAppEngineAddress("a")` and `SaveConfig()`
leave the cells 0 .. 9 as `182, 1, 2, 3, 'a', ¬, ¬, ¬, NUL` and one erased
cell: the address stands at offset 4, where the fourth id byte 4 was written
first, and the stream ends at index 8. -/
theorem C8_text_written_from_offset_4 :
    (((setTransmitterId (unloaded erased) 67305985).bind
        (fun st => setAppEngineAddress st [97])).bind SaveConfig).map
      (fun st => cells st.eeprom 10)
      = some [182, 1, 2, 3, 97, 172, 172, 172, 0, 255] := by
  decide

/-- C9 as stated fails: the record `oversize` (an address of 4089 characters)
takes 4097 bytes in the layout of `SaveConfig` and one more in the layout with
the text at offset 5, more than the capacity 4096 either way, and `SaveConfig`
over an erased EEPROM still changes cell 0 from 0xFF to the marker. -/
theorem C9_oversize_record_is_written :
    oversize.appEngineAddress.length = 4089
    ∧ EEPROM_SIZE < (savedBytes oversize).length
    ∧ ∃ st1, SaveConfig (cached erased oversize) = some st1
        ∧ erased 0 = 255 ∧ st1.eeprom 0 = 182 := by
  obtain ⟨st1, h1, h2⟩ := SaveConfig_cached_marker erased oversize
  refine ⟨?_, ?_, st1, h1, rfl, h2⟩
  · simp only [oversize, List.length_replicate]
  · rw [savedBytes_length]
    simp only [oversize, List.length_replicate, List.length_nil, EEPROM_SIZE]
    omega

/-- C9 as amended: `SaveConfig` has no capacity check. For every cached record
`r` and every EEPROM content `e` it returns, and afterwards each cell below the
capacity that the encoding `savedBytes r` reaches holds its byte of the
encoding, while every other cell (beyond the encoding, or at 4096 and above,
where the bytes of an oversize encoding are dropped) is as before. So a
record whose encoding has at most 4096 bytes is stored in full. -/
theorem C9_save_truncates_at_capacity (e : EEPROM) (r : BridgeConfig) :
    ∃ st1, SaveConfig (cached e r) = some st1 ∧
      (∀ a, a < (savedBytes r).length → a < EEPROM_SIZE →
        st1.eeprom a = (savedBytes r).getD a 0) ∧
      (∀ a, (savedBytes r).length ≤ a ∨ EEPROM_SIZE ≤ a → st1.eeprom a = e a) := by
  refine ⟨_, SaveConfig_loaded (cached e r) rfl, ?_, ?_⟩
  · intro a h1 h2
    exact saved_cell e r a h1 h2
  · intro a h
    show WriteStringToEEPROM e 0 (savedBytes r) a = e a
    rw [WriteStringToEEPROM_apply, if_neg]
    intro h3
    omega

/-- C9 as amended, at the record `exactFit` whose encoding has exactly 4096
bytes, over an erased EEPROM: every byte of the encoding is stored. -/
theorem C9_save_truncates_at_capacity_witness :
    (savedBytes exactFit).length = EEPROM_SIZE
    ∧ ∃ st1, SaveConfig (cached erased exactFit) = some st1 ∧
      (∀ a, a < (savedBytes exactFit).length → a < EEPROM_SIZE →
        st1.eeprom a = (savedBytes exactFit).getD a 0) ∧
      (∀ a, (savedBytes exactFit).length ≤ a ∨ EEPROM_SIZE ≤ a →
        st1.eeprom a = erased a) :=
  ⟨by rw [savedBytes_length]
      simp only [exactFit, List.length_replicate, List.length_nil, EEPROM_SIZE],
    C9_save_truncates_at_capacity erased exactFit⟩

/-- C10 (idempotent save): for every store the code can produce, over every
EEPROM content, that is not loaded, or is loaded with a cached record whose
text fields hold none of the bytes 0x00, 0xAC, 0xFF and whose encoding fits
the capacity: `SaveConfig` returns and leaves the store not loaded, the second
`SaveConfig`, which therefore reloads, returns too, and the EEPROM content
after the second call is the content after the first. -/
theorem C10_idempotent_save (st : Store) (hr : Reachable st)
    (hc : st._loaded = true →
      cleanText st._bridgeConfig.appEngineAddress ∧ cleanText st._bridgeConfig.hotSpotName
        ∧ cleanText st._bridgeConfig.hotSpotPassword
        ∧ (savedBytes st._bridgeConfig).length ≤ EEPROM_SIZE) :
    ∃ st1 st2, SaveConfig st = some st1 ∧ st1._loaded = false
      ∧ SaveConfig st1 = some st2 ∧ st2.eeprom = st1.eeprom := by
  have hp := Reachable_plain st hr
  cases hl : st._loaded with
  | true =>
    obtain ⟨ha, _, _, hfit⟩ := hc hl
    rw [savedBytes_length] at hfit
    simp only [EEPROM_SIZE] at hfit
    obtain ⟨st1, st2, h1, h2, h3⟩ :=
      SaveConfig_twice_loaded st hl hp.1 hp.2.1 ha (by omega)
    refine ⟨st1, st2, h1, ?_, h2, h3⟩
    rw [SaveConfig_loaded st hl, Option.some.injEq] at h1
    rw [← h1]
  | false =>
    obtain ⟨st1, st2, h1, h2, h3⟩ := SaveConfig_twice_unloaded st hl
    refine ⟨st1, st2, h1, ?_, h2, h3⟩
    obtain ⟨t, a, _, _, hload⟩ := LoadConfig_shape st
    rw [SaveConfig_unloaded st hl _ _ hload, SaveConfig_loaded _ rfl,
      Option.some.injEq] at h1
    rw [← h1]

/-- C10 on the loaded store a fresh object over an erased EEPROM is in after
`setAppEngineAddress("x.example.com")`. -/
theorem C10_idempotent_save_witness :
    Reachable addressed
    ∧ (addressed._loaded = true →
      cleanText addressed._bridgeConfig.appEngineAddress
        ∧ cleanText addressed._bridgeConfig.hotSpotName
        ∧ cleanText addressed._bridgeConfig.hotSpotPassword
        ∧ (savedBytes addressed._bridgeConfig).length ≤ EEPROM_SIZE)
    ∧ ∃ st1 st2, SaveConfig addressed = some st1 ∧ st1._loaded = false
        ∧ SaveConfig st1 = some st2 ∧ st2.eeprom = st1.eeprom :=
  have hr : Reachable addressed :=
    Reachable.setAppEngineAddress (unloaded erased) addressed exampleAddress
      (Reachable.fresh erased) rfl
  have hc : addressed._loaded = true →
      cleanText addressed._bridgeConfig.appEngineAddress
        ∧ cleanText addressed._bridgeConfig.hotSpotName
        ∧ cleanText addressed._bridgeConfig.hotSpotPassword
        ∧ (savedBytes addressed._bridgeConfig).length ≤ EEPROM_SIZE :=
    fun _ => ⟨by simp [cleanText, addressed, exampleAddress],
      by simp [cleanText, addressed], by simp [cleanText, addressed], by decide⟩
  ⟨hr, hc, C10_idempotent_save addressed hr hc⟩

/-- C11 (two-state lifecycle), evaluated on the code: on a store that is not
loaded over an erased EEPROM, `getWifiCount()`, `getWifiData(0)` and
`saveSSID("home", "pw")` do not return: `LoadConfig` hands back a record whose
wifi list pointer is null and each of the three calls dereferences it. -/
theorem C11_wifi_calls_stop_on_null_list :
    ((getWifiCount (unloaded erased)).map Outcome.value = some none)
    ∧ ((getWifiData calloc_WifiData (unloaded erased) 0).map Outcome.value = some none)
    ∧ ((saveSSID (unloaded erased) homeNetwork.ssid homeNetwork.password).map Outcome.value
      = some none)
    ∧ ((loaded (unloaded erased)).map (fun c => c.wifiList) = some none) := by
  refine ⟨?_, ?_, ?_, ?_⟩ <;> decide

/-- C12 (getters return the cached fields): on every store, with `cfg` the
cached record (the one `getBridgeConfig` returns: the cache of a loaded store),
`setAppEngineAddress(a)` changes only the address of `cfg` and the next
`getAppEngineAddress()` returns `a`; `setTransmitterId(t)` with a 32-bit `t`
changes only the id of `cfg` and the next `getTransmitterId()` returns `t`
whatever the EEPROM then holds. -/
theorem C12_getters_return_cached_fields (st : Store) (a : Str) (t : Nat)
    (ht : t < 2 ^ 32) :
    ∃ cfg st0, getBridgeConfig st = some (cfg, st0)
      ∧ (st._loaded = true → cfg = st._bridgeConfig)
      ∧ (∃ st1, setAppEngineAddress st a = some st1
          ∧ st1._bridgeConfig = { cfg with appEngineAddress := a }
          ∧ (getAppEngineAddress st1).map Prod.fst = some a)
      ∧ (∃ st2, setTransmitterId st t = some st2
          ∧ st2._bridgeConfig = { cfg with transmitterId := t }
          ∧ ∀ e, (getTransmitterId { st2 with eeprom := e }).map Prod.fst = some t) := by
  obtain ⟨cfg, hcfg, h1, _⟩ := getBridgeConfig_shape st
  refine ⟨cfg, _, hcfg, h1, ?_, ?_⟩
  · simp only [setAppEngineAddress, hcfg]
    refine ⟨_, rfl, rfl, ?_⟩
    simp only [getAppEngineAddress, getBridgeConfig, Bool.not_true, Bool.false_eq_true,
      if_false]
    split_ifs with h
    · rfl
    · have h2 : a = [] := List.eq_nil_of_length_eq_zero (by simpa using h)
      rw [h2]
      rfl
  · simp only [setTransmitterId, hcfg]
    refine ⟨_, rfl, ?_, ?_⟩
    · rw [Nat.mod_eq_of_lt ht]
    · intro e
      simp only [getTransmitterId, getBridgeConfig, Bool.not_true, Bool.false_eq_true,
        if_false, Option.map_some']
      rw [Nat.mod_eq_of_lt ht]

/-- C12 on a store that is not loaded over an erased EEPROM, with the address
`x.example.com` and the id 123456. -/
theorem C12_getters_return_cached_fields_witness :
    123456 < 2 ^ 32
    ∧ ∃ cfg st0, getBridgeConfig (unloaded erased) = some (cfg, st0)
      ∧ ((unloaded erased)._loaded = true → cfg = (unloaded erased)._bridgeConfig)
      ∧ (∃ st1, setAppEngineAddress (unloaded erased) exampleAddress = some st1
          ∧ st1._bridgeConfig = { cfg with appEngineAddress := exampleAddress }
          ∧ (getAppEngineAddress st1).map Prod.fst = some exampleAddress)
      ∧ (∃ st2, setTransmitterId (unloaded erased) 123456 = some st2
          ∧ st2._bridgeConfig = { cfg with transmitterId := 123456 }
          ∧ ∀ e, (getTransmitterId { st2 with eeprom := e }).map Prod.fst = some 123456) :=
  ⟨by decide, C12_getters_return_cached_fields (unloaded erased) exampleAddress 123456
    (by decide)⟩

/-- C13 (setters touch the cache only): on every store, loaded or not,
`setTransmitterId`, `setAppEngineAddress` and `saveSSID` leave every EEPROM
cell as it is and make no `EEPROM.commit()` call (for `saveSSID` also when it
stops on the null list pointer), and so do the four getters; `SaveConfig`
does write and commit: afterwards cell 0 holds the marker and one more commit
is counted. -/
theorem C13_setters_touch_cache_only (st : Store) (t : Nat) (a n p : Str) (u : WifiData)
    (i : Int) :
    (∃ st1, setTransmitterId st t = some st1
      ∧ st1.eeprom = st.eeprom ∧ st1.commits = st.commits)
    ∧ (∃ st1, setAppEngineAddress st a = some st1
      ∧ st1.eeprom = st.eeprom ∧ st1.commits = st.commits)
    ∧ (∃ o, saveSSID st n p = some o
      ∧ o.store.eeprom = st.eeprom ∧ o.store.commits = st.commits)
    ∧ (∃ o, getWifiData u st i = some o
      ∧ o.store.eeprom = st.eeprom ∧ o.store.commits = st.commits)
    ∧ (∃ o, getWifiCount st = some o
      ∧ o.store.eeprom = st.eeprom ∧ o.store.commits = st.commits)
    ∧ (∃ v st1, getTransmitterId st = some (v, st1)
      ∧ st1.eeprom = st.eeprom ∧ st1.commits = st.commits)
    ∧ (∃ v st1, getAppEngineAddress st = some (v, st1)
      ∧ st1.eeprom = st.eeprom ∧ st1.commits = st.commits)
    ∧ (∃ st1, SaveConfig st = some st1
      ∧ st1.eeprom 0 = 182 ∧ st1.commits = st.commits + 1) := by
  obtain ⟨cfg, hcfg, _, _⟩ := getBridgeConfig_shape st
  refine ⟨?_, ?_, ?_, ?_, ?_, ?_, ?_, ?_⟩
  · simp only [setTransmitterId, hcfg]
    exact ⟨_, rfl, rfl, rfl⟩
  · simp only [setAppEngineAddress, hcfg]
    exact ⟨_, rfl, rfl, rfl⟩
  · simp only [saveSSID, hcfg]
    cases cfg.wifiList <;> exact ⟨_, rfl, rfl, rfl⟩
  · simp only [getWifiData, hcfg]
    cases cfg.wifiList <;> exact ⟨_, rfl, rfl, rfl⟩
  · simp only [getWifiCount, hcfg]
    cases cfg.wifiList <;> exact ⟨_, rfl, rfl, rfl⟩
  · simp only [getTransmitterId, hcfg]
    exact ⟨_, _, rfl, rfl, rfl⟩
  · simp only [getAppEngineAddress, hcfg]
    split_ifs <;> exact ⟨_, _, rfl, rfl, rfl⟩
  · by_cases hl : st._loaded = true
    · exact ⟨_, SaveConfig_loaded st hl, saved_marker _ _, rfl⟩
    · obtain ⟨t1, a1, _, _, hload⟩ := LoadConfig_shape st
      rw [SaveConfig_unloaded st (by simpa using hl) _ _ hload]
      exact ⟨_, SaveConfig_loaded _ rfl, saved_marker _ _, rfl⟩

/-- C14 (saveSSID appends the given credentials), evaluated on the code: on a
loaded store whose wifi list exists and is empty, `saveSSID("home", "pw")`
leaves a list of one entry, `getWifiCount()` returns 1 and `getWifiData(0)`
returns the entry with an empty ssid and an empty password, not
`("home", "pw")`; on a store that is not loaded over an erased EEPROM the
same call stops on the null list pointer. -/
theorem C14_saved_entry_is_empty :
    ((saveSSID (cached erased (listing [])) homeNetwork.ssid homeNetwork.password).map
        (fun o => o.store._bridgeConfig.wifiList)
      = some (some [{ ssid := [], password := [] }]))
    ∧ (((saveSSID (cached erased (listing [])) homeNetwork.ssid homeNetwork.password).bind
        (fun o => getWifiCount o.store)).map Outcome.value = some (some 1))
    ∧ (((saveSSID (cached erased (listing [])) homeNetwork.ssid homeNetwork.password).bind
        (fun o => getWifiData homeNetwork o.store 0)).map Outcome.value
      = some (some { ssid := [], password := [] }))
    ∧ ((saveSSID (unloaded erased) homeNetwork.ssid homeNetwork.password).map Outcome.value
      = some none) := by
  refine ⟨?_, ?_, ?_, ?_⟩ <;> decide

/-- C15 (bounded decode): on every store `LoadConfig` returns; its loop,
started at index 4, returns within 4092 units of fuel, one for each pass,
whatever the cells hold and whatever the local variables are; with a valid
marker the record returned is the one that loop returns; and no cell above
4095 is read: an EEPROM content `e2` that agrees with the store on the cells
0 .. 4095 decodes to the same record. -/
theorem C15_bounded_decode (st : Store) (e2 : EEPROM)
    (h : ∀ k, k ≤ 4095 → e2 k = st.eeprom k) :
    (∃ cfg st1, LoadConfig st = some (cfg, st1))
    ∧ (∀ v, ∃ cfg, LoadConfig_loop st.eeprom 4092 4 v = some cfg)
    ∧ (st.eeprom 0 = 182 →
        loaded st = LoadConfig_loop st.eeprom 4092 4
          { config := headerOnly st.eeprom, eepromData := [], separatorFound := false,
            appEngineRead := false, hotspotNameRead := false,
            hotspotPasswordRead := false })
    ∧ loaded { st with eeprom := e2 } = loaded st := by
  refine ⟨LoadConfig_total st, ?_, ?_, ?_⟩
  · intro v
    exact LoadConfig_loop_terminates st.eeprom 4092 4 v (by omega) (by omega)
  · intro h0
    simp only [loaded, LoadConfig, EEPROM_read, h0, if_true, headerOnly, calloc_BridgeConfig]
    cases LoadConfig_loop st.eeprom 4092 4 _ <;> rfl
  · exact loaded_congr st { st with eeprom := e2 } 4095 (by omega) (Or.inr (Or.inr rfl)) h

/-- C15 on a valid record without any 0x00 or 0xFF byte, against a content
that differs from it above 4095. -/
theorem C15_bounded_decode_witness :
    (∀ k, k ≤ 4095 → (fun a => if a ≤ 4095 then unterminated a else 0) k
        = (unloaded unterminated).eeprom k)
    ∧ (∃ cfg st1, LoadConfig (unloaded unterminated) = some (cfg, st1))
    ∧ (∀ v, ∃ cfg, LoadConfig_loop (unloaded unterminated).eeprom 4092 4 v = some cfg)
    ∧ ((unloaded unterminated).eeprom 0 = 182 →
        loaded (unloaded unterminated)
          = LoadConfig_loop (unloaded unterminated).eeprom 4092 4
              { config := headerOnly (unloaded unterminated).eeprom, eepromData := [],
                separatorFound := false, appEngineRead := false, hotspotNameRead := false,
                hotspotPasswordRead := false })
    ∧ loaded { unloaded unterminated with
                 eeprom := fun a => if a ≤ 4095 then unterminated a else 0 }
        = loaded (unloaded unterminated) :=
  have h : ∀ k, k ≤ 4095 → (fun a => if a ≤ 4095 then unterminated a else 0) k
      = (unloaded unterminated).eeprom k := by
    intro k hk
    simp only [hk, if_true]
    rfl
  ⟨h, C15_bounded_decode (unloaded unterminated) _ h⟩

/-- C17 (decode keeps id and address only): for every store, whatever the
EEPROM holds, `LoadConfig` returns a record with an empty hotspot name, an
empty hotspot password and no wifi entry (the list pointer is null). -/
theorem C17_decode_keeps_id_and_address_only (st : Store) :
    ∃ cfg st1, LoadConfig st = some (cfg, st1) ∧ cfg.hotSpotName = []
      ∧ cfg.hotSpotPassword = [] ∧ cfg.wifiList = none ∧ cfg.wifiEntries = [] := by
  obtain ⟨t, a, _, _, h⟩ := LoadConfig_shape st
  exact ⟨_, _, h, rfl, rfl, rfl, rfl⟩

/-- C18 (the address covers the fourth id byte): for every cached record `r`
over every EEPROM content, after `SaveConfig` cell 4 holds the first
character of the address of `r`, or 0xAC when the address is empty, and the
id the following `LoadConfig` returns is `r.transmitterId mod 2^24` plus
`2^24` times that byte. -/
theorem C18_address_covers_fourth_id_byte (e : EEPROM) (r : BridgeConfig) :
    ∃ st1, SaveConfig (cached e r) = some st1
      ∧ st1.eeprom 4 = r.appEngineAddress.getD 0 172
      ∧ ∃ cfg st2, LoadConfig st1 = some (cfg, st2)
          ∧ cfg.transmitterId = r.transmitterId % 2 ^ 24 + 2 ^ 24 * (st1.eeprom 4).val := by
  have hlen := savedBytes_length r
  have c1 : WriteStringToEEPROM e 0 (savedBytes r) 1 = Fin.ofNat r.transmitterId :=
    saved_cell e r 1 (by omega) (by decide)
  have c2 : WriteStringToEEPROM e 0 (savedBytes r) 2 = Fin.ofNat (r.transmitterId / 256) :=
    saved_cell e r 2 (by omega) (by decide)
  have c3 : WriteStringToEEPROM e 0 (savedBytes r) 3 = Fin.ofNat (r.transmitterId / 65536) :=
    saved_cell e r 3 (by omega) (by decide)
  have c4 : WriteStringToEEPROM e 0 (savedBytes r) 4 = r.appEngineAddress.getD 0 172 := by
    have := saved_text_cell e r 0 (by rw [savedText_length]; omega) (by decide)
    rw [this]
    unfold savedText
    cases r.appEngineAddress <;> rfl
  obtain ⟨a, hload⟩ := LoadConfig_valid
    { eeprom := WriteStringToEEPROM e 0 (savedBytes r), _loaded := false, _bridgeConfig := r,
      commits := 1 }
    (saved_marker e r)
  refine ⟨_, SaveConfig_loaded (cached e r) rfl, c4, _, _, hload, ?_⟩
  show EEPROM_readAnything (WriteStringToEEPROM e 0 (savedBytes r)) 1 = _
  simp only [EEPROM_readAnything, EEPROM_read, Nat.reduceAdd, c1, c2, c3]
  show r.transmitterId % 256 + 256 * (r.transmitterId / 256 % 256)
      + 65536 * (r.transmitterId / 65536 % 256)
      + 16777216 * (WriteStringToEEPROM e 0 (savedBytes r) 4).val
    = r.transmitterId % 2 ^ 24 + 2 ^ 24 * (WriteStringToEEPROM e 0 (savedBytes r) 4).val
  omega

/-- C19 (the decode depends on the start of the record only): let `t ≥ 4` be
an index at which the first store holds 0x00 or 0xFF, or let `t` be 4095 (in
particular `t` may be the first such index of a record with a valid marker).
Whenever the second store agrees with the first on the cells 0 .. t,
`LoadConfig` returns the same record on both: the cells after `t` have no
influence. -/
theorem C19_decode_depends_on_start_only (st st2 : Store) (t : Nat) (h4 : 4 ≤ t)
    (hstop : st.eeprom t = 0 ∨ st.eeprom t = 255 ∨ t = 4095)
    (hagree : ∀ k, k ≤ t → st2.eeprom k = st.eeprom k) :
    ∃ cfg, loaded st = some cfg ∧ loaded st2 = some cfg := by
  obtain ⟨cfg, st1, h⟩ := LoadConfig_total st
  have h2 := loaded_congr st st2 t h4 hstop hagree
  refine ⟨cfg, ?_, ?_⟩
  · simp only [loaded, h, Option.map_some']
  · rw [h2]
    simp only [loaded, h, Option.map_some']

/-- C19 on the record `a¬` with its NUL at index 6 followed by `1, 2, 3`, and
the same record followed by `9, 9, 9, 9`. -/
theorem C19_decode_depends_on_start_only_witness :
    (unloaded tailOne).eeprom 0 = 182 ∧ 4 ≤ 6 ∧ 6 ≤ 4095
    ∧ ((unloaded tailOne).eeprom 6 = 0 ∨ (unloaded tailOne).eeprom 6 = 255 ∨ 6 = 4095)
    ∧ (∀ k, k ≤ 6 → (unloaded tailTwo).eeprom k = (unloaded tailOne).eeprom k)
    ∧ (unloaded tailTwo).eeprom 7 ≠ (unloaded tailOne).eeprom 7
    ∧ ∃ cfg, loaded (unloaded tailOne) = some cfg ∧ loaded (unloaded tailTwo) = some cfg :=
  have hagree : ∀ k, k ≤ 6 → (unloaded tailTwo).eeprom k = (unloaded tailOne).eeprom k := by
    intro k hk
    interval_cases k <;> rfl
  ⟨by decide, by decide, by decide, Or.inl (by decide), hagree, by decide,
    C19_decode_depends_on_start_only (unloaded tailOne) (unloaded tailTwo) 6 (by decide)
      (Or.inl (by decide)) hagree⟩

/-- C20 as stated fails: for the record `oversize` the index
`7 + la + ln + lp` is 4096, the capacity, and after `SaveConfig` over an
erased EEPROM the cell 4096 still reads 0xFF: the write of the NUL is
dropped. -/
theorem C20_terminator_beyond_capacity_is_dropped :
    7 + oversize.appEngineAddress.length + oversize.hotSpotName.length
        + oversize.hotSpotPassword.length = 4096
    ∧ ∃ st1, SaveConfig (cached erased oversize) = some st1 ∧ st1.eeprom 4096 = 255 := by
  obtain ⟨st1, h1, h2⟩ := SaveConfig_cached_frame erased oversize
  refine ⟨?_, st1, h1, ?_⟩
  · simp only [oversize, List.length_replicate, List.length_nil]
  · rw [h2 4096 (Or.inr (by decide))]
    rfl

/-- C20 as amended: for every cached record `r` and every EEPROM content `e`,
`SaveConfig` leaves the NUL at the index `7 + la + ln + lp` when that index
is below the capacity 4096, changes no cell at any greater index, and leaves
the same EEPROM content whatever wifi list `wl` the cached record has. -/
theorem C20_save_writes_the_start_only (e : EEPROM) (r : BridgeConfig)
    (wl : Option (List WifiData)) :
    ∃ st1, SaveConfig (cached e r) = some st1
      ∧ (7 + r.appEngineAddress.length + r.hotSpotName.length + r.hotSpotPassword.length
          < EEPROM_SIZE →
        st1.eeprom
          (7 + r.appEngineAddress.length + r.hotSpotName.length + r.hotSpotPassword.length)
          = 0)
      ∧ (∀ a, 7 + r.appEngineAddress.length + r.hotSpotName.length
          + r.hotSpotPassword.length < a → st1.eeprom a = e a)
      ∧ ∃ st2, SaveConfig (cached e { r with wifiList := wl }) = some st2
          ∧ st2.eeprom = st1.eeprom := by
  have hsave := SaveConfig_loaded (cached e r) rfl
  refine ⟨_, hsave, ?_, ?_, _, SaveConfig_loaded (cached e { r with wifiList := wl }) rfl,
    rfl⟩
  · intro h
    obtain ⟨st1, h1, h2⟩ := SaveConfig_cached_terminator e r h
    rw [hsave] at h1
    rw [Option.some.inj h1]
    exact h2
  · intro a ha
    obtain ⟨st1, h1, h2⟩ := SaveConfig_cached_frame e r
    rw [hsave] at h1
    rw [Option.some.inj h1]
    exact h2 a (Or.inl (by rw [savedBytes_length]; omega))

/-- C20 as amended, for the record with the address `a` and the hotspot name
`b` saved over the 20 bytes of an earlier record: the NUL stands at index 9
and the cells 10 .. 19 keep their old bytes. -/
theorem C20_save_writes_the_start_only_witness :
    ∃ st1, SaveConfig (cached staleRecord namedHotspot) = some st1
      ∧ (7 + namedHotspot.appEngineAddress.length + namedHotspot.hotSpotName.length
          + namedHotspot.hotSpotPassword.length < EEPROM_SIZE →
        st1.eeprom
          (7 + namedHotspot.appEngineAddress.length + namedHotspot.hotSpotName.length
            + namedHotspot.hotSpotPassword.length) = 0)
      ∧ (∀ a, 7 + namedHotspot.appEngineAddress.length + namedHotspot.hotSpotName.length
          + namedHotspot.hotSpotPassword.length < a → st1.eeprom a = staleRecord a)
      ∧ ∃ st2, SaveConfig (cached staleRecord
            { namedHotspot with wifiList := some [homeNetwork] }) = some st2
          ∧ st2.eeprom = st1.eeprom :=
  C20_save_writes_the_start_only staleRecord namedHotspot (some [homeNetwork])

end Configuration
